import Mathlib

/-!
Verification of the structural assembly and collision engine of
IDPConformerGenerator (`src/idpconfgen/ldrs_helper.py` and
`src/idpconfgen/fldrs_helper.py`).

The Python atom arrays (one row per atom, string cells) are embedded as
lists of an `Atom` structure.  Floating point coordinates are modelled as
exact rationals; every comparison of a Euclidean distance
`sqrt(q) < s` in the source is embedded in the algebraically equivalent
squared form `0 < s ∧ q < s²` so that all definitions stay computable.
External collaborators (the van-der-Waals radius table, the one-letter
amino-acid table, `np.linalg.svd`, the random rotation generator) are
taken as parameters, following §6 of the design document which lists them
as consumed from collaborators.
-/

namespace IDPCG

/-- One row of a structural array (PDB atom record), as stored in the
numpy string arrays produced by `parse_pdb_to_array`.  Residue sequence
numbers are kept as integers (the Python code converts with
`.astype(int)` where it does arithmetic on them) and coordinates as
exact rationals. -/
structure Atom where
  serial  : String := ""
  name    : String := ""
  element : String := ""
  resName : String := ""
  resSeq  : Int := 0
  chainID : String := ""
  segid   : String := ""
  x       : ℚ := 0
  y       : ℚ := 0
  z       : ℚ := 0
  deriving Repr, DecidableEq

/-- A structural array: ordered list of atom records. -/
abbrev Arr := List Atom

/-- The `disorder_cases` dictionary of the source:
`{0: "N-IDR", 1: "Break-IDR", 2: "C-IDR"}`.  Cases are dispatched by
string equality in the source, so we keep them as strings. -/
def nIDRcase : String := "N-IDR"

def breakIDRcase : String := "Break-IDR"

def cIDRcase : String := "C-IDR"

/-- Python truthiness of a string: non-empty strings are truthy.
Used to embed `if case == disorder_cases[0] or disorder_cases[1]:`
whose right operand is the plain string `"Break-IDR"`. -/
def pyTruthy (s : String) : Bool := s ≠ ""

/-- Python list indexing with negative-index wrap-around:
`seq[j]` for `j ≥ -len(seq)` ; out-of-range accesses return `d`
(they do not occur in the loops embedded below, see the comments at
each use site). -/
def pyIdx (seq : List Int) (j : Int) (d : Int) : Int :=
  if j < 0 then seq.getD (seq.length + j).toNat d
  else seq.getD j.toNat d

/-- Squared Euclidean distance between the coordinates of two atoms;
the source's `calculate_distance` is its square root. -/
def sqDist (a b : Atom) : ℚ :=
  (a.x - b.x) ^ 2 + (a.y - b.y) ^ 2 + (a.z - b.z) ^ 2

/-- Embeds the source comparison `calculate_distance(p, q) < s`, i.e.
`sqrt(sqDist) < s`, in squared form: the square root of a nonnegative
number is `< s` iff `0 < s` and the number is `< s²`. -/
def distLt (a b : Atom) (s : ℚ) : Bool :=
  decide (0 < s ∧ sqDist a b < s ^ 2)

/-- Result of a clash scan: either the integer count (`num_clashes`)
or the Python `True` sentinel returned on early exit. -/
inductive ClashRes
  | exceeded
  | count (n : ℕ)
  deriving Repr, DecidableEq

/-- Whether the pair of atoms clashes:
`distance < vdw_radius1 + vdw_radius2 + tolerance` from the source,
with the vdW table `vdW_radii_tsai_1999` supplied as the external
parameter `vdW` (it lives in `core/definitions.py`, an external data
table per §6 of the design document). -/
def isClash (vdW : String → ℚ) (tol : ℚ) (a b : Atom) : Bool :=
  distLt a b (vdW a.element + vdW b.element + tol)

/-- The pairwise scan of `count_clashes` (ldrs_helper.py, lines 618-635):
for each (parent, fragment) atom pair, first test
`if num_clashes > max_clash: return True, fragment`, then increment the
count when the distance is below the vdW sum plus tolerance. -/
def clashScanGT (vdW : String → ℚ) (tol : ℚ) (maxClash : ℕ) :
    List (Atom × Atom) → ℕ → ClashRes
  | [], n => .count n
  | (a, b) :: rest, n =>
      if n > maxClash then .exceeded
      else clashScanGT vdW tol maxClash rest
        (if isClash vdW tol a b then n + 1 else n)

/-- All (parent, fragment) pairs in the order the Python nested loop
visits them (parent outer, fragment inner). -/
def atomPairs (parent fragment : Arr) : List (Atom × Atom) :=
  parent.flatMap (fun a => fragment.map (fun b => (a, b)))

/-- Number of clashing pairs in a pair list. -/
def clashCount (vdW : String → ℚ) (tol : ℚ) (pairs : List (Atom × Atom)) : ℕ :=
  (pairs.filter (fun p => isClash vdW tol p.1 p.2)).length

/-- The trailing trim of `count_clashes` (ldrs_helper.py, lines 594-605):
walking `j` from the end of the untouched `fragment_seq`, one trailing
atom is removed per iteration, stopping after the removal at which
`last_r - int(fragment_seq[j - 1]) == 3`.  The Python
`try/except IndexError: continue` never fires: `j - 1 ≥ -1` always, and
index `-1` wraps to the last element.  The first argument counts the
remaining loop iterations (initially `seq.length`); in the iteration
with `rem + 1` remaining, the Python loop variables are
`i = seq.length - (rem + 1)` and `j = seq.length - 1 - i = rem`. -/
def ldrsTrimTail (seq : List Int) (lastR : Int) : ℕ → Arr → Arr
  | 0, atoms => atoms
  | rem + 1, atoms =>
      let prev := pyIdx seq ((rem : Int) - 1) 0
      let atoms' := atoms.dropLast
      if lastR - prev == 3 then atoms'
      else ldrsTrimTail seq lastR rem atoms'

/-- The leading trim of the `elif case == disorder_cases[2]` branch of
`count_clashes` (ldrs_helper.py, lines 606-616): remove leading atoms
until `int(fragment_seq[i + 1]) - first_r == 3`.  At the last index
(one remaining iteration) `fragment_seq[i + 1]` raises IndexError,
which the `try/except` turns into `continue`, so no atom is removed and
the loop ends.  The first argument counts remaining iterations
(initially `seq.length`); with `rem + 2` remaining the Python index is
`i = seq.length - (rem + 2)`. -/
def ldrsTrimHead (seq : List Int) (firstR : Int) : ℕ → Arr → Arr
  | 0, atoms => atoms
  | 1, atoms => atoms
  | rem + 2, atoms =>
      let i : Int := (seq.length : Int) - ((rem : Int) + 2)
      let next := pyIdx seq (i + 1) 0
      let atoms' := atoms.drop 1
      if next - firstR == 3 then atoms'
      else ldrsTrimHead seq firstR (rem + 1) atoms'

/-- The fragment atoms that `count_clashes` of ldrs_helper.py actually
scans, after the case-dependent boundary trim (lines 591-616).

The branch condition in the source is
`if case == disorder_cases[0] or disorder_cases[1]:`, i.e.
`(case == "N-IDR") or "Break-IDR"`.  Its right operand is the non-empty
string `"Break-IDR"`, which is truthy, so this branch is taken for
EVERY value of `case` and the `elif case == disorder_cases[2]` branch
(leading trim) is dead code.  We embed the condition literally. -/
def ldrsTrimmedFragment (fragment : Arr) (case : Option String) : Arr :=
  let seq := fragment.map (·.resSeq)
  let lastR := pyIdx seq ((seq.length : Int) - 1) 0
  let firstR := pyIdx seq 0 0
  if (case == some nIDRcase) || pyTruthy breakIDRcase then
    ldrsTrimTail seq lastR seq.length fragment
  else if case == some cIDRcase then
    ldrsTrimHead seq firstR seq.length fragment
  else fragment

/-- `count_clashes` of ldrs_helper.py (lines 547-635): trims the
fragment per the disorder case, then scans every
parent-atom × trimmed-fragment-atom pair with early exit once the
running count surpasses `max_clash`; returns the (untrimmed) fragment
alongside the result, as the source does. -/
def count_clashes_ldrs (fragment : Arr) (parent : Arr)
    (case : Option String) (maxClash : ℕ) (tol : ℚ) (vdW : String → ℚ) :
    ClashRes × Arr :=
  let frag' := ldrsTrimmedFragment fragment case
  (clashScanGT vdW tol maxClash (atomPairs parent frag') 0, fragment)

/-! ## `count_clashes` and `clash_and_rotate_helper` of fldrs_helper.py -/

/-- The drop-last-residue loop shared by `count_clashes` of
fldrs_helper.py (lines 378-387, via `np.delete` at the current last
index) and `psurgeon` of ldrs_helper.py (lines 687-693, 797-803,
821-827, via `[:-1]` slicing): walking `j` from the end of the fixed
residue-sequence list, one trailing atom is removed per iteration until
`fragment_seq[j - 1] != fragment_seq[j]`, i.e. until the whole last
residue is gone.  At `j = 0` the Python index `j - 1 = -1` wraps to the
last element.  The first argument counts remaining iterations
(initially `seq.length`); with `rem + 1` remaining the Python index is
`j = rem`. -/
def dropLastResLoop (seq : List Int) : ℕ → Arr → Arr
  | 0, atoms => atoms
  | rem + 1, atoms =>
      let curr := pyIdx seq (rem : Int) 0
      let prev := pyIdx seq ((rem : Int) - 1) 0
      let atoms' := atoms.dropLast
      if prev ≠ curr then atoms'
      else dropLastResLoop seq rem atoms'

/-- `np.delete(arr, i, axis=0)`: remove the row at index `i`.  For
`i ≥ len(arr)` numpy raises IndexError; that situation is modelled as
the identity and is not reached in any theorem below. -/
def pyDeleteAt (atoms : Arr) (i : ℕ) : Arr :=
  atoms.take i ++ atoms.drop (i + 1)

/-- The C-IDR trim of `count_clashes` of fldrs_helper.py
(lines 390-398).  Note the source deletes index `i` of the ALREADY
SHRUNK array (`fragment_atoms = np.delete(fragment_atoms, i, axis=0)`),
so for `i = 0, 1, 2, …` the rows removed are the ORIGINAL rows
0, 2, 4, … — not a contiguous leading block.  The loop control
(`next = fragment_seq[i + 1]`, break when `next != curr`) reads the
untouched `fragment_seq`; at the last index `fragment_seq[i + 1]`
raises an uncaught IndexError, modelled as stopping (not reached in any
theorem below).  With `rem + 1` remaining iterations the Python index
is `i = seq.length - (rem + 1)`. -/
def fldrsTrimCIDR (seq : List Int) : ℕ → Arr → Arr
  | 0, atoms => atoms
  | rem + 1, atoms =>
      let i := seq.length - (rem + 1)
      if i + 1 < seq.length then
        let curr := pyIdx seq (i : Int) 0
        let next := pyIdx seq ((i : Int) + 1) 0
        let atoms' := pyDeleteAt atoms i
        if next ≠ curr then atoms'
        else fldrsTrimCIDR seq rem atoms'
      else atoms

/-- The pairwise scan of `count_clashes` of fldrs_helper.py
(lines 401-417): identical to the ldrs version except that the early
exit tests `num_clashes >= max_clash` (line 412). -/
def clashScanGE (vdW : String → ℚ) (tol : ℚ) (maxClash : ℕ) :
    List (Atom × Atom) → ℕ → ClashRes
  | [], n => .count n
  | (a, b) :: rest, n =>
      if n ≥ maxClash then .exceeded
      else clashScanGE vdW tol maxClash rest
        (if isClash vdW tol a b then n + 1 else n)

/-- `count_clashes` of fldrs_helper.py (lines 333-417): here the case
dispatch is a proper `if/elif/elif` chain (no truthiness bug): N-IDR
drops the fragment's last residue, Break-IDR trims nothing (`pass`),
C-IDR runs the shifted-index deletion loop. -/
def count_clashes_fldrs (parent fragment : Arr) (case : Option String)
    (maxClash : ℕ) (tol : ℚ) (vdW : String → ℚ) : ClashRes :=
  let seq := fragment.map (·.resSeq)
  let frag' :=
    if case == some nIDRcase then dropLastResLoop seq seq.length fragment
    else if case == some breakIDRcase then fragment
    else if case == some cIDRcase then fldrsTrimCIDR seq seq.length fragment
    else fragment
  clashScanGE vdW tol maxClash (atomPairs parent frag') 0

/-- The Python expression `n_clashes == True` of
`clash_and_rotate_helper` (fldrs_helper.py line 438), where `n_clashes`
is either the bool `True` or an `int`.  In Python `True == True` holds,
and an int compares equal to `True` exactly when it equals 1
(bool is an int subtype with `True == 1`). -/
def pyEqTrue : ClashRes → Bool
  | .exceeded => true
  | .count n => n == 1

/-- The retry loop of `clash_and_rotate_helper` (fldrs_helper.py lines
437-448): while `n_clashes == True` and `counter <= max_rotation`,
rotate once more and re-count.  The first `ℕ` argument is the number of
loop iterations still allowed (`max_rotation + 1 - counter`, initially
`max_rotation`); the second is the number of `rotator` calls already
applied, so the current fragment is `s k`. -/
def rotLoop (parent : Arr) (case : Option String) (maxClash : ℕ)
    (tol : ℚ) (vdW : String → ℚ) (s : ℕ → Arr) :
    ℕ → ℕ → ClashRes → ClashRes × ℕ
  | 0, k, n => (n, k)
  | rem + 1, k, n =>
      if pyEqTrue n then
        rotLoop parent case maxClash tol vdW s rem (k + 1)
          (count_clashes_fldrs parent (s (k + 1)) case maxClash tol vdW)
      else (n, k)

/-- `clash_and_rotate_helper` (fldrs_helper.py lines 420-450).

Modelled from the spec: `rotator` reorients the fragment by a uniform
random angle about a case-dependent pivot (§4.4, §5: randomness is an
externally supplied generator) and compounds across retries; the
successive rotated orientations are therefore supplied here as the
oracle stream `s`, with `s k` the fragment state after `k + 1` calls of
`rotator` (the helper rotates once before its first clash count).
Everything else — the initial count, the `while (n_clashes == True) and
(counter <= max_rotation)` loop and the returned triple — follows the
source exactly. -/
def clash_and_rotate_helper (s : ℕ → Arr) (fragPath : String)
    (parent : Arr) (case : Option String) (maxClash maxRotation : ℕ)
    (tol : ℚ) (vdW : String → ℚ) : ClashRes × Arr × String :=
  let n0 := count_clashes_fldrs parent (s 0) case maxClash tol vdW
  let r := rotLoop parent case maxClash tol vdW s maxRotation 0 n0
  (r.1, s r.2, fragPath)

/-- A fixed toy van-der-Waals table used for the concrete inputs of the
theorems below (the real table is an external collaborator). -/
def vdWone : String → ℚ := fun _ => 1

/-! ## `break_check` of ldrs_helper.py (identical in fldrs_helper.py)

The `Structure` plumbing that feeds `break_check` —
`Structure(fdata).build()`, `add_filter_backbone(minimal=True)`,
`structure.coords` — is not part of the sources here (the bundled
`libstructure.py` is an older revision without those members).
Modelled from the spec (§4.1: "Input: a built structure exposing
backbone atoms N, CA, C per residue in sequence order"): `break_check`
below takes the backbone-filtered atom rows directly, with
`structure.coords` their coordinates in the same order.  Everything
from the name masks (line 256) onward follows ldrs_helper.py lines
253-293 exactly. -/

/-- Python error outcomes that `break_check` can produce. -/
inductive PyErr
  | idpExc
  | indexError
  | assertionError
  deriving Repr, DecidableEq

deriving instance DecidableEq for Except

/-- A 3D point. -/
abbrev Vec3 := ℚ × ℚ × ℚ

/-- Coordinates of an atom row. -/
def coordsOf (a : Atom) : Vec3 := (a.x, a.y, a.z)

/-- Squared Euclidean distance between two points; the source's
`np.linalg.norm` of the difference is its square root. -/
def sqDistV (p q : Vec3) : ℚ :=
  (p.1 - q.1) ^ 2 + (p.2.1 - q.2.1) ^ 2 + (p.2.2 - q.2.2) ^ 2

/-- Coordinates of the backbone N atoms of the filtered rows
(`coords_raw[n_mask, :]`). -/
def bbN (data : Arr) : List Vec3 :=
  (data.filter (fun a => a.name = "N")).map coordsOf

/-- Coordinates of the backbone CA atoms (`coords_raw[ca_mask, :]`). -/
def bbCA (data : Arr) : List Vec3 :=
  (data.filter (fun a => a.name = "CA")).map coordsOf

/-- Coordinates of the backbone C atoms (`coords_raw[c_mask, :]`). -/
def bbC (data : Arr) : List Vec3 :=
  (data.filter (fun a => a.name = "C")).map coordsOf

/-- Whether the numpy slice assignment `coords[k::3, :] = src` succeeds
for a buffer with `n` rows per stride: it does when `src` has exactly
`n` rows, or exactly one row (numpy broadcasts a single row over the
whole slice); any other length raises ValueError, which `break_check`
converts into IDPConfGenException. -/
def sliceAssignOK (src : List Vec3) (n : ℕ) : Bool :=
  src.length == n || src.length == 1

/-- The rows numpy actually writes into the slice: the source rows, or
the single row replicated when broadcasting. -/
def sliceAssigned (src : List Vec3) (n : ℕ) : List Vec3 :=
  if src.length = n then src else List.replicate n (src.getD 0 (0, 0, 0))

/-- The interleaved N→CA→C backbone coordinate sequence
(`coords[0::3] = n; coords[1::3] = ca; coords[2::3] = c`). -/
def interleave3 : List Vec3 → List Vec3 → List Vec3 → List Vec3
  | a :: as, b :: bs, d :: ds => a :: b :: d :: interleave3 as bs ds
  | _, _, _ => []

/-- The interleaved backbone coordinates of `break_check`, after the
(possibly broadcasting) slice assignments. -/
def bbCoords (data : Arr) : List Vec3 :=
  interleave3 (bbN data)
    (sliceAssigned (bbCA data) (bbN data).length)
    (sliceAssigned (bbC data) (bbN data).length)

/-- Squared distances between consecutive points
(`np.linalg.norm(coords[:-1, :] - coords[1:, :], axis=1)`, squared). -/
def consecutiveSq : List Vec3 → List ℚ
  | a :: b :: rest => sqDistV a b :: consecutiveSq (b :: rest)
  | _ => []

/-- The squared consecutive backbone distances of a structure. -/
def bbDists (data : Arr) : List ℚ := consecutiveSq (bbCoords data)

/-- Helper for `consecutive_grouper`: the current group runs from `f`
to `l`; a next element equal to `l + 1` extends it, anything else
closes it (recording `(first, last + 1)`) and starts a new group. -/
def groupConsec (f l : ℕ) : List ℕ → List (ℕ × ℕ)
  | [] => [(f, l + 1)]
  | x :: xs =>
      if x = l + 1 then groupConsec f x xs
      else (f, l + 1) :: groupConsec x x xs

/-- `consecutive_grouper` (ldrs_helper.py lines 119-150): groups
consecutive integers and returns `(first, last + 1)` bounds per group.
On an empty input, `grouped = [[seq[0]]]` raises IndexError. -/
def consecutive_grouper (seq : List ℕ) : Except PyErr (List (ℕ × ℕ)) :=
  match seq with
  | [] => .error .indexError
  | x :: xs => .ok (groupConsec x x xs)

/-- `list(range(a, b, 3))`. -/
def rangeStep3 (a b : ℕ) : List ℕ :=
  (List.range ((b - a + 2) / 3)).map (fun k => a + 3 * k)

/-- The folded-segment FASTA construction of `break_check` (lines
287-289): for each `(first, last+1)` bound, index the filtered rows at
`range(first, last+1, 3)` and map residue names through the one-letter
table.  numpy fancy indexing raises IndexError when an index is out of
range (possible when a broadcast shortened the row count relative to
the coordinate count). -/
def buildSeqs (data : Arr) (aa1 : String → Char) :
    List (ℕ × ℕ) → Except PyErr (List String)
  | [] => .ok []
  | (f, l1) :: rest =>
      let idxs := rangeStep3 f l1
      if idxs.any (fun i => data.length ≤ i) then .error .indexError
      else
        match buildSeqs data aa1 rest with
        | .error e => .error e
        | .ok seqs =>
            .ok (String.mk
              (idxs.map (fun i => aa1 ((data.getD i {}).resName))) :: seqs)

/-- The body of `break_check` (ldrs_helper.py lines 229-293;
byte-identical logic in fldrs_helper.py lines 134-198) following the
slice assignments.  Input: the backbone-filtered atom rows (see the
section comment).  The one-letter table `aa3to1` of
`core/definitions.py` is the external parameter `aa1`.  Squared-form
distance comparisons: `dist > 2.1 ↔ sq > 4.41`,
`dist < 2.1 ↔ sq < 4.41`.  The
`assert coords_distances.size == coords.shape[0] - 1` of line 277
fails exactly when there are no backbone N rows (`0 == -1`). -/
def break_check_core (data : Arr) (aa1 : String → Char) :
    Except PyErr (Option (List String)) :=
  if (bbN data).length = 0 then .error .assertionError
  else if (bbDists data).any (fun d => d > 441/100) then
    match consecutive_grouper ((List.range (bbDists data).length).filter
        (fun i => decide ((bbDists data).getD i 0 < 441/100))) with
    | .error e => .error e
    | .ok bounds =>
        match buildSeqs data aa1 bounds with
        | .error e => .error e
        | .ok seqs => .ok (some seqs)
  else .ok none

/-- `break_check` itself: the two fallible numpy slice assignments,
whose ValueError is converted to IDPConfGenException (ldrs_helper.py
lines 264-274), guard the body `break_check_core`. -/
def break_check (data : Arr) (aa1 : String → Char) :
    Except PyErr (Option (List String)) :=
  if ¬ sliceAssignOK (bbCA data) (bbN data).length then .error .idpExc
  else if ¬ sliceAssignOK (bbC data) (bbN data).length then .error .idpExc
  else break_check_core data aa1

/-- Concrete one-residue backbone used as witness input: N, CA, C one
ångström apart, all consecutive distances 1 ≤ 2.1. -/
def c8data : Arr :=
  [ { name := "N",  resName := "ALA", x := 0 },
    { name := "CA", resName := "ALA", x := 1 },
    { name := "C",  resName := "ALA", x := 2 } ]

/-- A fixed toy one-letter table (the real `aa3to1` is an external
collaborator). -/
def aaAla : String → Char := fun _ => 'A'

/-- Structure with two N rows, one CA row and two C rows, all atoms
within 2.1 Å of their interleaved neighbours. -/
def c9data : Arr :=
  [ { name := "N",  resName := "ALA", x := 0 },
    { name := "N",  resName := "ALA", x := 1/2 },
    { name := "CA", resName := "ALA", x := 1 },
    { name := "C",  resName := "ALA", x := 3/2 },
    { name := "C",  resName := "ALA", x := 2 } ]

/-- Fragment of five single-atom residues numbered 1..5; the atom of
residue 2 sits at the origin, all others far away. -/
def c1frag : Arr :=
  [ { resSeq := 1, element := "C", name := "CF1", x := 100 },
    { resSeq := 2, element := "C", name := "CF2", x := 0 },
    { resSeq := 3, element := "C", name := "CF3", x := 200 },
    { resSeq := 4, element := "C", name := "CF4", x := 300 },
    { resSeq := 5, element := "C", name := "CF5", x := 400 } ]

/-- A parent consisting of one atom at the origin. -/
def c1parent : Arr := [ { element := "C", name := "CP", x := 0 } ]

/-- First rotated orientation for the retry-loop input: residue 1 at
the origin (clashing with `c1parent`), residue 2 far away (trimmed off
by the N-IDR case anyway). -/
def c7fragA : Arr :=
  [ { resSeq := 1, element := "C", name := "A1", x := 0 },
    { resSeq := 2, element := "C", name := "A2", x := 50 } ]

/-- Second rotated orientation: everything far from the parent. -/
def c7fragB : Arr :=
  [ { resSeq := 1, element := "C", name := "B1", x := 100 },
    { resSeq := 2, element := "C", name := "B2", x := 150 } ]

/-- Orientation stream for the retry loop: the first `rotator` call
yields `c7fragA`, every further call yields `c7fragB`. -/
def c7stream : ℕ → Arr := fun k => if k = 0 then c7fragA else c7fragB

/-! ## `align_coords` of ldrs_helper.py (lines 296-395) -/

/-- x component of a point. -/
def vx (v : Vec3) : ℚ := v.1

/-- y component of a point. -/
def vy (v : Vec3) : ℚ := v.2.1

/-- z component of a point. -/
def vz (v : Vec3) : ℚ := v.2.2

/-- Componentwise sum. -/
def vadd (a b : Vec3) : Vec3 := (vx a + vx b, vy a + vy b, vz a + vz b)

/-- Componentwise difference. -/
def vsub (a b : Vec3) : Vec3 := (vx a - vx b, vy a - vy b, vz a - vz b)

/-- Scalar multiple. -/
def vscale (q : ℚ) (v : Vec3) : Vec3 := (q * vx v, q * vy v, q * vz v)

/-- A 3×3 matrix as three rows; also used for a stack of three points
(`np.array([[C], [N], [CA]])`). -/
abbrev Mat3 := Vec3 × Vec3 × Vec3

/-- Row mean (`arr.mean(axis=0)` of a 3-row stack). -/
def mean3 (m : Mat3) : Vec3 :=
  vscale (1/3) (vadd m.1 (vadd m.2.1 m.2.2))

/-- Subtract the row mean from every row (centering). -/
def center3 (m : Mat3) : Mat3 :=
  (vsub m.1 (mean3 m), vsub m.2.1 (mean3 m), vsub m.2.2 (mean3 m))

/-- Row vector times matrix (`np.dot(row, M)`): the linear combination
of the matrix rows by the vector components. -/
def mulRowMat (v : Vec3) (m : Mat3) : Vec3 :=
  vadd (vscale (vx v) m.1) (vadd (vscale (vy v) m.2.1) (vscale (vz v) m.2.2))

/-- Cross-covariance `np.dot(a.T, b)` of two 3-row stacks: row `r` of
the result is the combination of `b`'s rows by the `r`-th coordinates
of `a`'s rows. -/
def covMat (a b : Mat3) : Mat3 :=
  ( vadd (vscale (vx a.1) b.1)
      (vadd (vscale (vx a.2.1) b.2.1) (vscale (vx a.2.2) b.2.2)),
    vadd (vscale (vy a.1) b.1)
      (vadd (vscale (vy a.2.1) b.2.1) (vscale (vy a.2.2) b.2.2)),
    vadd (vscale (vz a.1) b.1)
      (vadd (vscale (vz a.2.1) b.2.1) (vscale (vz a.2.2) b.2.2)) )

/-- Python `round(q, 3)`.  Python uses round-half-to-even on floats;
Mathlib `round` rounds half up.  The two differ only at exact ties
`…x.0005`, and both satisfy `|q - round3 q| ≤ 1/2000`, the only
property the theorems below use. -/
def round3 (q : ℚ) : ℚ := ((round (1000 * q) : ℤ) : ℚ) / 1000

/-- Round all three coordinates to 3 decimal places. -/
def round3v (v : Vec3) : Vec3 := (round3 (vx v), round3 (vy v), round3 (vz v))

/-- The `idr_term_idx` dictionary: indices of the anchor "C", "N" and
"CA" atoms found by the case scan. -/
structure AnchorIdx where
  cIdx  : Option ℕ := none
  nIdx  : Option ℕ := none
  caIdx : Option ℕ := none
  deriving Repr, DecidableEq

/-- The N-IDR anchor scan (align_coords lines 336-350): walk `j` from
the last atom backwards; `N`/`CA` of the last residue and `C` of the
residue before it are recorded; reaching residue `last_seq - 2` breaks.
With `rem + 1` remaining iterations the Python index is `j = rem`. -/
def nidrScan (names : List String) (seqs : List Int) (lastSeq : Int) :
    ℕ → AnchorIdx → AnchorIdx
  | 0, st => st
  | rem + 1, st =>
      let seq := pyIdx seqs (rem : Int) 0
      let nm := names.getD rem ""
      if seq == lastSeq && nm == "N" then
        nidrScan names seqs lastSeq rem { st with nIdx := some rem }
      else if seq == lastSeq && nm == "CA" then
        nidrScan names seqs lastSeq rem { st with caIdx := some rem }
      else if seq == lastSeq - 1 && nm == "C" then
        nidrScan names seqs lastSeq rem { st with cIdx := some rem }
      else if seq == lastSeq - 2 then st
      else nidrScan names seqs lastSeq rem st

/-- The C-IDR anchor scan (align_coords lines 351-364): walk `i`
forwards; `N`/`CA` of the second residue and `C` of the first are
recorded; reaching residue `first_seq + 2` breaks.  With `rem + 1`
remaining iterations the Python index is `i = seqs.length - (rem+1)`. -/
def cidrScan (names : List String) (seqs : List Int) (firstSeq : Int) :
    ℕ → AnchorIdx → AnchorIdx
  | 0, st => st
  | rem + 1, st =>
      let i := seqs.length - (rem + 1)
      let seq := pyIdx seqs (i : Int) 0
      let nm := names.getD i ""
      if seq == firstSeq + 1 && nm == "N" then
        cidrScan names seqs firstSeq rem { st with nIdx := some i }
      else if seq == firstSeq + 1 && nm == "CA" then
        cidrScan names seqs firstSeq rem { st with caIdx := some i }
      else if seq == firstSeq && nm == "C" then
        cidrScan names seqs firstSeq rem { st with cIdx := some i }
      else if seq == firstSeq + 2 then st
      else cidrScan names seqs firstSeq rem st

/-- `idr_term_idx` after the case dispatch of align_coords: for a case
other than N-IDR / C-IDR the dictionary stays empty (and the subsequent
lookups raise KeyError). -/
def idrTermIdx (sample : Arr) (case : String) : AnchorIdx :=
  let names := sample.map (·.name)
  let seqs := sample.map (·.resSeq)
  if case = nIDRcase then
    nidrScan names seqs (pyIdx seqs ((seqs.length : Int) - 1) 0)
      seqs.length {}
  else if case = cIDRcase then
    cidrScan names seqs (pyIdx seqs 0 0) seqs.length {}
  else {}

/-- Overwrite the coordinate fields of an atom row. -/
def setCoords (a : Atom) (v : Vec3) : Atom :=
  { a with x := vx v, y := vy v, z := vz v }

/-- `align_coords` (ldrs_helper.py lines 296-395).  `target` is the
3-point anchor stack `[[C], [N], [CA]]`.  `np.linalg.svd` is an
external numeric routine (§4.2 lists the Procrustes solution as the
design intent); the function `svdRot` standing for
`U, S, Vt = svd(cov); R = U @ Vt` is therefore a parameter applied to
the cross-covariance, and every theorem below holds for an arbitrary
`svdRot`.  A missing anchor atom or a case that fills no dictionary
entry makes the Python code raise KeyError, modelled as `none`. -/
def align_coords (sample : Arr) (target : Mat3) (case : String)
    (svdRot : Mat3 → Mat3) : Option Arr :=
  let idx := idrTermIdx sample case
  match idx.cIdx, idx.nIdx, idx.caIdx with
  | some ic, some im, some ia =>
      let pC := coordsOf (sample.getD ic {})
      let pN := coordsOf (sample.getD im {})
      let pCA := coordsOf (sample.getD ia {})
      let idrCoords : Mat3 := (pC, pN, pCA)
      let rotation := svdRot (covMat (center3 idrCoords) (center3 target))
      let rotated := sample.map
        (fun a => setCoords a (mulRowMat (coordsOf a) rotation))
      let tv := vsub target.1 (coordsOf (rotated.getD ic {}))
      some (rotated.map (fun a => setCoords a (round3v (vadd tv (coordsOf a)))))
  | _, _, _ => none

/-- The identity matrix as a stand-in SVD result for the witness. -/
def svdId : Mat3 → Mat3 := fun _ => ((1, 0, 0), (0, 1, 0), (0, 0, 1))

/-- A two-residue fragment (N, CA, C per residue) for the alignment
witness; the C-IDR scan finds C of residue 1 at index 2 and N/CA of
residue 2 at indices 3 and 4. -/
def c6sample : Arr :=
  [ { name := "N",  resSeq := 1, x := 5,  y := 1, z := 0 },
    { name := "CA", resSeq := 1, x := 6,  y := 2, z := 0 },
    { name := "C",  resSeq := 1, x := 7,  y := 3, z := 0 },
    { name := "N",  resSeq := 2, x := 8,  y := 4, z := 0 },
    { name := "CA", resSeq := 2, x := 9,  y := 5, z := 0 },
    { name := "C",  resSeq := 2, x := 10, y := 6, z := 0 } ]

/-- A target anchor frame for the witness. -/
def c6target : Mat3 := ((10, 20, 30), (11, 21, 31), (12, 22, 32))

/-! ## The junction gate scan of `sliding_window` (ldrs_helper.py
lines 398-544)

`sliding_window` walks candidate N-side fragments and, per candidate,
increasing residue offsets `i` along the C-side fragment, testing three
geometric gates (line 477) on real-valued coordinates; the geometry
(`calculate_distance`, `calculate_angle`) uses `sqrt` and `arccos`, so
this part of the development is over `ℝ`.  The per-offset gate decision
is independent of the acceptance bodies: `idr_C`, `idr_CA`,
`nterm_idr_N`, `nterm_idr_CA` are built before the offset loop and
never modified by it. -/

/-- A real 3D point. -/
abbrev RVec3 := ℝ × ℝ × ℝ

/-- Componentwise difference. -/
def rsub (a b : RVec3) : RVec3 := (a.1 - b.1, a.2.1 - b.2.1, a.2.2 - b.2.2)

/-- Dot product. -/
def rdot (a b : RVec3) : ℝ := a.1 * b.1 + a.2.1 * b.2.1 + a.2.2 * b.2.2

/-- `np.linalg.norm`. -/
noncomputable def rnorm (v : RVec3) : ℝ :=
  Real.sqrt (v.1 ^ 2 + v.2.1 ^ 2 + v.2.2 ^ 2)

/-- `calculate_distance` (ldrs_helper.py lines 65-82). -/
noncomputable def rdist (a b : RVec3) : ℝ := rnorm (rsub a b)

/-- `calculate_angle` (ldrs_helper.py lines 85-116):
`arccos(dot(ab, cb) / (|ab| |cb|))`.  For degenerate vectors numpy
yields NaN and every interval comparison is false; in Lean division by
zero gives `arccos 0 = π/2 ∉ [1.91, 2.15]`, and `arccos` clamps
arguments outside `[-1, 1]` to `0` or `π`, likewise outside the gate
interval — both models reject degenerate geometry. -/
noncomputable def rangle (a b c : RVec3) : ℝ :=
  Real.arccos (rdot (rsub a b) (rsub c b) / (rnorm (rsub a b) * rnorm (rsub c b)))

/-- The three geometric gates of line 477:
`1.32 <= CN_dist <= 1.56 and 1.91 <= CACN_ang <= 2.15 and
2.2 <= CCA_dist <= 2.7`, with `CN_dist = dist(curr_c, next_n)`,
`CACN_ang = angle(idr_CA[i], curr_c, next_n)` and
`CCA_dist = dist(curr_c, next_ca)`. -/
def junctionGates (ca c n nca : RVec3) : Prop :=
  1.32 ≤ rdist c n ∧ rdist c n ≤ 1.56 ∧
  1.91 ≤ rangle ca c n ∧ rangle ca c n ≤ 2.15 ∧
  2.2 ≤ rdist c nca ∧ rdist c nca ≤ 2.7

/-- The gate at offset `i`: candidate atoms `nterm[i+1]` against the
C-side fragment's `idr_C[i]`, `idr_CA[i]`. -/
def gateAt (idrC idrCA ntermN ntermCA : List RVec3) (i : ℕ) : Prop :=
  junctionGates (idrCA.getD i (0, 0, 0)) (idrC.getD i (0, 0, 0))
    (ntermN.getD (i + 1) (0, 0, 0)) (ntermCA.getD (i + 1) (0, 0, 0))

open Classical in
/-- The offset loop of one candidate (lines 467-477): iterate `i` over
`idr_C`; accessing `nterm_idr_N[i+1]` or `nterm_idr_CA[i+1]` out of
range raises IndexError, caught as `break`; an offset is accepted (its
body runs) exactly when the three gates hold, and the loop continues
afterwards.  Returns the accepted offsets in scan order.  The first
argument is the number of remaining iterations (initially
`idrC.length`), the second the current offset. -/
noncomputable def offsetScan (idrC idrCA ntermN ntermCA : List RVec3) :
    ℕ → ℕ → List ℕ
  | 0, _ => []
  | fuel + 1, i =>
      if i + 1 < ntermN.length ∧ i + 1 < ntermCA.length then
        if gateAt idrC idrCA ntermN ntermCA i then
          i :: offsetScan idrC idrCA ntermN ntermCA fuel (i + 1)
        else offsetScan idrC idrCA ntermN ntermCA fuel (i + 1)
      else []

/-- All offsets of one candidate whose junction is accepted. -/
noncomputable def acceptedOffsets (idrC idrCA ntermN ntermCA : List RVec3) :
    List ℕ :=
  offsetScan idrC idrCA ntermN ntermCA idrC.length 0

/-- Witness C-side fragment: one C atom at the origin. -/
noncomputable def wIdrC : List RVec3 := [(0, 0, 0)]

/-- Witness C-side CA: chosen so that the Cα–C···N angle is exactly
2π/3 ≈ 2.094 ∈ [1.91, 2.15]. -/
noncomputable def wIdrCA : List RVec3 := [(-(1/2 : ℝ), Real.sqrt 3 / 2, 0)]

/-- Witness N-side N atoms: the offset-1 atom is 1.4 Å from the C. -/
noncomputable def wNtermN : List RVec3 := [(0, 0, 0), (7/5, 0, 0)]

/-- Witness N-side CA atoms: the offset-1 atom is 2.5 Å from the C. -/
noncomputable def wNtermCA : List RVec3 := [(0, 0, 0), (5/2, 0, 0)]

/-! ## `psurgeon` of ldrs_helper.py (lines 638-859)

`psurgeon` splices the disordered fragment(s) and the folded structure
per disorder case.  Inputs arrive as `Path` or array; with `Path`
inputs the `Structure` objects `idr` / `fld` exist and `.build()` just
yields the parsed arrays, so the embedding takes the built arrays
directly (`Sum.inl` one fragment, `Sum.inr` the (N-IDR, C-IDR) tuple).
Branches whose Python would hit an unbound name (`NameError`: a tuple
in a single-fragment case or vice versa, an unrecognized case falling
through to line 854, or the Break case never assigning `insert_idx`)
are modelled as `none`. -/

/-- The strict drop-first-residue loop of `psurgeon`
(fld at lines 697-702 and 808-813, idr at lines 763-768, cidr at lines
830-835; the Break-IDR idr loop of lines 713-721 is the same loop with
`try/except IndexError: continue`): walk `i` forward over the fixed
residue-sequence list, removing one leading atom per iteration, until
`seq[i + 1] != seq[i]`.  At the last index `seq[i + 1]` is out of
range: the Break variant continues (loop ends), the strict variants
raise IndexError in Python — that situation only arises when the whole
array is one residue and is excluded by the hypotheses of every theorem
below; both are modelled as stopping.  The first argument counts
remaining iterations (initially `seq.length`); with `rem + 1` remaining
the Python index is `i = seq.length - (rem + 1)`. -/
def dropFirstResLoop (seq : List Int) : ℕ → Arr → Arr
  | 0, atoms => atoms
  | rem + 1, atoms =>
      let i := seq.length - (rem + 1)
      if i + 1 < seq.length then
        let curr := pyIdx seq (i : Int) 0
        let next := pyIdx seq ((i : Int) + 1) 0
        let atoms' := atoms.drop 1
        if next ≠ curr then atoms'
        else dropFirstResLoop seq rem atoms'
      else atoms

/-- The renumbering loop of `psurgeon` (lines 774-783 and 841-850):
assign `curr_residue` to each atom in order, incrementing it whenever
the next original residue number differs from the current one (the
loop reads the original numbers: at step `i` it writes index `i` and
reads index `i + 1`, which is not yet overwritten). -/
def renumberRes (curr : Int) : Arr → Arr
  | [] => []
  | a :: [] => [{ a with resSeq := curr }]
  | a :: b :: rest =>
      { a with resSeq := curr } ::
        renumberRes (if b.resSeq ≠ a.resSeq then curr + 1 else curr) (b :: rest)

/-- The post-assembly canonicalization (lines 854-857): serials
reassigned `1..N` in final order, chain and segment identifiers reset
to `"A"`. -/
def canonicalizeFrom (start : ℕ) : Arr → Arr
  | [] => []
  | a :: rest =>
      { a with serial := toString start, chainID := "A", segid := "A" } ::
        canonicalizeFrom (start + 1) rest

/-- Canonicalize a whole array (serials from 1). -/
def canonicalizeArr (arr : Arr) : Arr := canonicalizeFrom 1 arr

/-- Index of the first element satisfying `p` (the Break-IDR branch
records `insert_idx` at the first row whose residue number matches a
boundary residue, lines 731-737); `none` models the `insert_idx`
never being assigned (NameError at line 746). -/
def findFirstIdx (p : Int → Bool) : List Int → Option ℕ
  | [] => none
  | x :: xs => if p x then some 0 else (findFirstIdx p xs).map (· + 1)

/-- `psurgeon` (ldrs_helper.py lines 638-859). -/
def psurgeon (idp : Arr ⊕ (Arr × Arr)) (fld : Arr) (case : String)
    (ranges : Int × Int) : Option Arr :=
  let fldSeq := fld.map (·.resSeq)
  if case = nIDRcase then
    match idp with
    | .inl idr =>
        let idrSeq := idr.map (·.resSeq)
        let idrT := dropLastResLoop idrSeq idrSeq.length idr
        let fldT := dropFirstResLoop fldSeq fldSeq.length fld
        some (canonicalizeArr (idrT ++ fldT))
    | .inr _ => none
  else if case = breakIDRcase then
    match idp with
    | .inl idr =>
        let idrSeq := idr.map (·.resSeq)
        let idrT := dropFirstResLoop idrSeq idrSeq.length idr
        let first := pyIdx fldSeq 0 0
        let aL := first + ranges.1 - 1
        let aU := first + ranges.2
        match findFirstIdx (fun r => r == aL || r == aU) fldSeq with
        | none => none
        | some idx =>
            let kept := fld.filter
              (fun a => ! (a.resSeq == aL || a.resSeq == aU))
            let idrR := idrT.map
              (fun a => { a with resSeq := a.resSeq + aL - 2 })
            some (canonicalizeArr (kept.take idx ++ idrR ++ kept.drop idx))
    | .inr _ => none
  else if case = cIDRcase then
    match idp with
    | .inl idr =>
        let idrSeq := idr.map (·.resSeq)
        let fldT := dropLastResLoop fldSeq fldSeq.length fld
        let idrT := dropFirstResLoop idrSeq idrSeq.length idr
        let lastFld := pyIdx (fldT.map (·.resSeq)) ((fldT.length : Int) - 1) 0
        let idrR := renumberRes (lastFld + 1) idrT
        some (canonicalizeArr (fldT ++ idrR))
    | .inr _ => none
  else if case = nIDRcase ++ cIDRcase then
    match idp with
    | .inr pair =>
        let nidr := pair.1
        let cidr := pair.2
        let nSeq := nidr.map (·.resSeq)
        let nidrT := dropLastResLoop nSeq nSeq.length nidr
        let fldT := dropFirstResLoop fldSeq fldSeq.length fld
        let newArr := nidrT ++ fldT
        let newSeq := newArr.map (·.resSeq)
        let newT := dropLastResLoop newSeq newSeq.length newArr
        let cSeq := cidr.map (·.resSeq)
        let cidrT := dropFirstResLoop cSeq cSeq.length cidr
        let lastNew := pyIdx (newT.map (·.resSeq)) ((newT.length : Int) - 1) 0
        let cidrR := renumberRes (lastNew + 1) cidrT
        some (canonicalizeArr (newT ++ cidrR))
    | .inl _ => none
  else none

/-- The residue-number invariant of §4.6: adjacent atoms carry either
the same residue number or the next one, i.e. residue numbers increase
by exactly 1 at every residue boundary, with no gaps or repeats. -/
def resChainOK (l : List Int) : Prop :=
  List.Chain' (fun a b => b = a ∨ b = a + 1) l

instance (l : List Int) : Decidable (resChainOK l) :=
  inferInstanceAs (Decidable (List.Chain' (fun a b => b = a ∨ b = a + 1) l))

/-- Iterated `dropLast` (the trailing-trim loops remove one atom per
iteration). -/
def dropLastIter : ℕ → Arr → Arr
  | 0, a => a
  | n + 1, a => dropLastIter n a.dropLast

/-- Folded structure of five single-atom residues 1..5 for the Break
counterexample. -/
def cx5fld : Arr :=
  [ { resSeq := 1, name := "FLD1" }, { resSeq := 2, name := "FLD2" },
    { resSeq := 3, name := "FLD3" }, { resSeq := 4, name := "FLD4" },
    { resSeq := 5, name := "FLD5" } ]

/-- Two-residue fragment for the Break counterexample. -/
def cx5idr : Arr :=
  [ { resSeq := 1, name := "IDR1" }, { resSeq := 2, name := "IDR2" } ]

/-- Witness pieces for the Break splice. -/
def c5P : Arr := [ { resSeq := 1, name := "P1" } ]

def c5L : Arr := [ { resSeq := 2, name := "L2" } ]

def c5U : Arr := [ { resSeq := 5, name := "U5" } ]

def c5S : Arr := ([] : Arr)

def c5G : Arr := [ { resSeq := 1, name := "G1" } ]

def c5H : Arr :=
  [ { resSeq := 2, name := "H2" }, { resSeq := 3, name := "H3" } ]

/-- Two-residue fragment and folded structure whose numbering does not
align, for the N-IDR counterexample. -/
def c2idr : Arr :=
  [ { resSeq := 1, name := "I1a" }, { resSeq := 1, name := "I1b" },
    { resSeq := 2, name := "I2a" }, { resSeq := 2, name := "I2b" } ]

def c2fld : Arr :=
  [ { resSeq := 10, name := "F10a" }, { resSeq := 10, name := "F10b" },
    { resSeq := 11, name := "F11a" }, { resSeq := 11, name := "F11b" } ]

/-- Witness data for the four graft cases. -/
def w2A : Arr := [ { resSeq := 1, name := "A1" } ]

def w2B : Arr := [ { resSeq := 2, name := "B2" } ]

def w2C : Arr := [ { resSeq := 1, name := "C1" } ]

def w2D : Arr := [ { resSeq := 2, name := "D2" } ]

def w2E : Arr := [ { resSeq := 1, name := "E1" } ]

def w2F : Arr := [ { resSeq := 2, name := "F2" } ]

def w2G : Arr := [ { resSeq := 1, name := "G1" } ]

def w2H : Arr := [ { resSeq := 2, name := "H2" } ]

def w2Cc : Arr := [ { resSeq := 5, name := "C5" } ]

def w2Dc : Arr := [ { resSeq := 6, name := "D6" } ]

def w2W : Arr := [ { resSeq := 1, name := "A1" } ]

def w2V : Arr := [ { resSeq := 6, name := "D6" } ]

lemma clashCount_cons (vdW : String → ℚ) (tol : ℚ) (p : Atom × Atom)
    (l : List (Atom × Atom)) :
    clashCount vdW tol (p :: l) =
      (if isClash vdW tol p.1 p.2 then 1 else 0) + clashCount vdW tol l := by
  simp only [clashCount, List.filter]
  by_cases h : isClash vdW tol p.1 p.2 <;> simp [h, Nat.add_comm]

lemma clashScanGT_cons (vdW : String → ℚ) (tol : ℚ) (maxClash : ℕ)
    (a b : Atom) (rest : List (Atom × Atom)) (n : ℕ) :
    clashScanGT vdW tol maxClash ((a, b) :: rest) n =
      if n > maxClash then .exceeded
      else clashScanGT vdW tol maxClash rest
        (if isClash vdW tol a b then n + 1 else n) := rfl

/-- Closed form of the early-exit pairwise scan: the sentinel is
returned exactly when the clash count over all pairs before the final
one exceeds `max_clash` (the check `num_clashes > max_clash` runs at
the top of each iteration, so the count present at the last iteration's
check omits the last pair's own contribution); otherwise the exact
total, seeded by `n`, is returned. -/
lemma clashScanGT_eq (vdW : String → ℚ) (tol : ℚ) (maxClash : ℕ) :
    ∀ (pairs : List (Atom × Atom)) (n : ℕ),
    clashScanGT vdW tol maxClash pairs n =
      if pairs ≠ [] ∧ n + clashCount vdW tol pairs.dropLast > maxClash
      then .exceeded else .count (n + clashCount vdW tol pairs) := by
  intro pairs
  induction pairs with
  | nil =>
      intro n
      simp [clashScanGT, clashCount]
  | cons p rest ih =>
      intro n
      obtain ⟨a, b⟩ := p
      rw [clashScanGT_cons]
      by_cases hn : n > maxClash
      · have hge : n + clashCount vdW tol ((a, b) :: rest).dropLast > maxClash :=
          lt_of_lt_of_le hn (Nat.le_add_right _ _)
        simp [hn, hge]
      · rw [if_neg hn]
        cases rest with
        | nil =>
            have h2 : ¬ (((a, b) :: []) ≠ [] ∧
                n + clashCount vdW tol
                  ((a, b) :: ([] : List (Atom × Atom))).dropLast
                  > maxClash) := by
              simp [clashCount, hn]
            rw [if_neg h2]
            by_cases hc : isClash vdW tol a b <;>
              simp [clashScanGT, clashCount_cons, clashCount, hc, Nat.add_comm]
        | cons q rest' =>
            rw [ih]
            have hdl : ((a, b) :: q :: rest').dropLast =
                (a, b) :: (q :: rest').dropLast := rfl
            by_cases hc : isClash vdW tol a b
            · simp [hc, hdl, clashCount_cons, Nat.add_assoc]
            · simp [hc, hdl, clashCount_cons]

lemma consecutive_grouper_ne_idpExc (seq : List ℕ) :
    consecutive_grouper seq ≠ .error .idpExc := by
  cases seq <;> simp [consecutive_grouper]

lemma buildSeqs_ne_idpExc (data : Arr) (aa1 : String → Char) :
    ∀ bounds, buildSeqs data aa1 bounds ≠ Except.error PyErr.idpExc := by
  intro bounds
  induction bounds with
  | nil => simp [buildSeqs]
  | cons b rest ih =>
      obtain ⟨f, l1⟩ := b
      simp only [buildSeqs]
      by_cases hb : (rangeStep3 f l1).any (fun i => data.length ≤ i)
      · simp [hb]
      · simp only [hb]
        cases hr : buildSeqs data aa1 rest with
        | error e =>
            simp only [Bool.false_eq_true, if_false]
            exact hr ▸ ih
        | ok seqs => simp [hr]

/-- C8.  For every input whose backbone N/CA/C atom counts agree (at
least one residue present) and whose consecutive distances along the
interleaved N→CA→C backbone sequence are all ≤ 2.1 Å (squared form:
≤ 4.41), `break_check` returns the no-break sentinel `None` rather
than a list of folded-segment sequences. -/
theorem break_check_contiguous_returns_sentinel
    (data : Arr) (aa1 : String → Char)
    (hca : (bbCA data).length = (bbN data).length)
    (hc : (bbC data).length = (bbN data).length)
    (hn : 0 < (bbN data).length)
    (hall : ∀ d ∈ bbDists data, d ≤ 441/100) :
    break_check data aa1 = .ok none := by
  have h1 : sliceAssignOK (bbCA data) (bbN data).length = true := by
    simp [sliceAssignOK, hca]
  have h2 : sliceAssignOK (bbC data) (bbN data).length = true := by
    simp [sliceAssignOK, hc]
  have h3 : ¬ (bbN data).length = 0 := by omega
  have h4 : (bbDists data).any (fun d => decide (d > 441/100)) = false := by
    rw [List.any_eq_false]
    intro d hd
    simpa using not_lt_of_le (hall d hd)
  simp [break_check, break_check_core, h1, h2, h3, h4]

/-- C8 witness: the one-residue backbone `c8data` satisfies all
hypotheses and gets the sentinel. -/
theorem break_check_contiguous_returns_sentinel_witness :
    break_check c8data aaAla = .ok none :=
  break_check_contiguous_returns_sentinel c8data aaAla
    (by with_unfolding_all decide) (by with_unfolding_all decide)
    (by with_unfolding_all decide) (by with_unfolding_all decide)

/-- C10.  When some consecutive backbone distance exceeds 2.1 Å but no
distance is strictly below 2.1 Å, the `whole` index list is empty and
`consecutive_grouper` indexes `seq[0]` of an empty list: `break_check`
aborts with IndexError instead of returning an (empty) folded-segment
list. -/
theorem break_check_all_large_aborts_with_index_error
    (data : Arr) (aa1 : String → Char)
    (hca : (bbCA data).length = (bbN data).length)
    (hc : (bbC data).length = (bbN data).length)
    (hbig : ∃ d ∈ bbDists data, d > 441/100)
    (hnone : ∀ d ∈ bbDists data, ¬ d < 441/100) :
    break_check data aa1 = .error .indexError := by
  have h1 : sliceAssignOK (bbCA data) (bbN data).length = true := by
    simp [sliceAssignOK, hca]
  have h2 : sliceAssignOK (bbC data) (bbN data).length = true := by
    simp [sliceAssignOK, hc]
  have h3 : ¬ (bbN data).length = 0 := by
    intro h0
    obtain ⟨d, hd, _⟩ := hbig
    have : bbDists data = [] := by
      have hn0 : bbN data = [] := List.length_eq_zero.mp h0
      simp [bbDists, bbCoords, hn0, interleave3, consecutiveSq]
    rw [this] at hd
    exact absurd hd (List.not_mem_nil d)
  have h4 : (bbDists data).any (fun d => decide (d > 441/100)) = true := by
    rw [List.any_eq_true]
    obtain ⟨d, hd, hgt⟩ := hbig
    exact ⟨d, hd, by simpa using hgt⟩
  have h5 : (List.range (bbDists data).length).filter
      (fun i => decide ((bbDists data)[i]?.getD 0 < 441/100)) = [] := by
    rw [List.filter_eq_nil_iff]
    intro i hi
    rw [List.mem_range] at hi
    have hmem : (bbDists data)[i]?.getD 0 ∈ bbDists data := by
      rw [List.getElem?_eq_getElem hi]
      simp [List.getElem_mem hi]
    simpa using hnone _ hmem
  simp [break_check, break_check_core, h1, h2, h3, h4, h5,
    consecutive_grouper]

/-- C10 witness: a single residue whose N, CA, C atoms are 10 Å apart
in sequence. -/
theorem break_check_all_large_aborts_with_index_error_witness :
    break_check
      [ { name := "N",  resName := "ALA", x := 0 },
        { name := "CA", resName := "ALA", x := 10 },
        { name := "C",  resName := "ALA", x := 20 } ] aaAla
      = .error .indexError :=
  break_check_all_large_aborts_with_index_error _ aaAla
    (by with_unfolding_all decide) (by with_unfolding_all decide)
    (by with_unfolding_all decide) (by with_unfolding_all decide)

/-- C9, counterexample.  A structure with 2 backbone N, 1 CA and 2 C
atoms has mutually differing backbone counts, yet `break_check` does
NOT raise: the numpy slice assignment `coords[1::3, :] = ca` with a
single CA row broadcasts that row over the whole slice instead of
raising ValueError, so no IDPConfGenException is produced and the scan
completes normally. -/
theorem break_check_count_mismatch_without_error :
    (bbN c9data).length = 2 ∧ (bbCA c9data).length = 1 ∧
    (bbC c9data).length = 2 ∧
    break_check c9data aaAla = .ok none := by
  refine ⟨by with_unfolding_all decide, by with_unfolding_all decide,
    by with_unfolding_all decide, ?_⟩
  with_unfolding_all decide

/-- Helper: the body of `break_check` never produces
IDPConfGenException — its only outcomes are the assertion failure, an
IndexError, or a regular return. -/
lemma break_check_core_ne_idpExc (data : Arr) (aa1 : String → Char) :
    break_check_core data aa1 ≠ Except.error PyErr.idpExc := by
  unfold break_check_core
  split_ifs with h0 hany
  · simp
  · cases hg : consecutive_grouper ((List.range (bbDists data).length).filter
        (fun i => decide ((bbDists data).getD i 0 < 441/100))) with
    | error e =>
        have hne := consecutive_grouper_ne_idpExc
          ((List.range (bbDists data).length).filter
            (fun i => decide ((bbDists data).getD i 0 < 441/100)))
        rw [hg] at hne
        simpa using hne
    | ok bounds =>
        dsimp only
        cases hb : buildSeqs data aa1 bounds with
        | error e =>
            have hne := buildSeqs_ne_idpExc data aa1 bounds
            rw [hb] at hne
            simpa using hne
        | ok seqs => simp [hb]
  · simp

/-- C9, amended.  `break_check` fails with IDPConfGenException exactly
when a numpy slice assignment fails: when the CA count differs from the
N count and is not 1, or the C count differs from the N count and is
not 1 (numpy broadcasts a single row silently, so a lone CA or C atom
escapes the structural-mismatch error).  In every other situation no
IDPConfGenException is produced. -/
theorem break_check_structural_error_characterization
    (data : Arr) (aa1 : String → Char) :
    break_check data aa1 = .error .idpExc ↔
      ¬ ((bbCA data).length = (bbN data).length ∨ (bbCA data).length = 1) ∨
      ¬ ((bbC data).length = (bbN data).length ∨ (bbC data).length = 1) := by
  by_cases h1 : sliceAssignOK (bbCA data) (bbN data).length
  · by_cases h2 : sliceAssignOK (bbC data) (bbN data).length
    · have hr : ¬ (¬ ((bbCA data).length = (bbN data).length ∨
          (bbCA data).length = 1) ∨
          ¬ ((bbC data).length = (bbN data).length ∨
          (bbC data).length = 1)) := by
        simp only [sliceAssignOK, Bool.or_eq_true, beq_iff_eq] at h1 h2
        tauto
      have hne : break_check data aa1 ≠ Except.error PyErr.idpExc := by
        rw [break_check, if_neg (by simp [h1]), if_neg (by simp [h2])]
        exact break_check_core_ne_idpExc data aa1
      exact iff_of_false hne hr
    · have hr : ¬ ((bbC data).length = (bbN data).length ∨
          (bbC data).length = 1) := by
        simpa [sliceAssignOK] using h2
      simp [break_check, h1, h2, hr]
  · have hr : ¬ ((bbCA data).length = (bbN data).length ∨
        (bbCA data).length = 1) := by
      simpa [sliceAssignOK] using h1
    simp [break_check, h1, hr]

/-- C1, counterexample.  With `max_clash = 0`, a one-atom parent and a
fragment whose trimmed form is two atoms of which only the second
clashes, the total number of clashing pairs (1) exceeds `max_clash`
(0), yet `count_clashes` returns the plain integer count 1, not the
exceeded sentinel: the `num_clashes > max_clash` check runs before each
pair, so a count first surpassing `max_clash` at the very last pair is
returned as an integer. -/
theorem count_clashes_total_exceeds_but_int_returned :
    clashCount vdWone (2/5)
        (atomPairs c1parent (ldrsTrimmedFragment c1frag none)) = 1 ∧
    1 > 0 ∧
    (count_clashes_ldrs c1frag c1parent none 0 (2/5) vdWone).1 = .count 1 := by
  refine ⟨by with_unfolding_all decide, by decide, ?_⟩
  with_unfolding_all decide

/-- C1, amended.  `count_clashes` returns the exceeded sentinel exactly
when the clash count over all scanned pairs except the final one
surpasses `max_clash`; in every other situation (including the boundary
where the final pair is the one that pushes the count past `max_clash`)
it returns the exact integer count of pairs whose distance is below the
sum of the two van-der-Waals radii plus the distance tolerance. -/
theorem count_clashes_early_exit_characterization
    (fragment parent : Arr) (case : Option String) (maxClash : ℕ)
    (tol : ℚ) (vdW : String → ℚ) :
    (count_clashes_ldrs fragment parent case maxClash tol vdW).1 =
      if atomPairs parent (ldrsTrimmedFragment fragment case) ≠ [] ∧
         clashCount vdW tol
           (atomPairs parent (ldrsTrimmedFragment fragment case)).dropLast
           > maxClash
      then .exceeded
      else .count (clashCount vdW tol
           (atomPairs parent (ldrsTrimmedFragment fragment case))) := by
  show clashScanGT vdW tol maxClash _ 0 = _
  rw [clashScanGT_eq]
  simp

/-- C3.  The trimming dispatch of `count_clashes` is broken for the
C-terminal case: the condition
`if case == disorder_cases[0] or disorder_cases[1]:` is always truthy
(its right operand is the non-empty string `"Break-IDR"`), so even for
`case = "C-IDR"` the fragment's trailing residues are stripped and the
leading-trim branch is dead.  Concretely, for a fragment of five
single-atom residues whose residue-5 atom coincides with the only
parent atom, the C-IDR call keeps residues 1-2 (trailing residues 3-5
stripped) and reports zero clashes, although the residue-5 atom clashes
with the parent. -/
theorem count_clashes_cidr_trims_trailing_not_leading :
    (ldrsTrimmedFragment c1frag (some cIDRcase)).map (·.resSeq) = [1, 2] ∧
    isClash vdWone (2/5) { element := "C", name := "CP", x := 0 }
      { resSeq := 5, element := "C", name := "CF5", x := 0 } = true ∧
    (count_clashes_ldrs
        [ { resSeq := 1, element := "C", name := "CF1", x := 100 },
          { resSeq := 2, element := "C", name := "CF2", x := 200 },
          { resSeq := 3, element := "C", name := "CF3", x := 300 },
          { resSeq := 4, element := "C", name := "CF4", x := 400 },
          { resSeq := 5, element := "C", name := "CF5", x := 0 } ]
        c1parent (some cIDRcase) 40 (2/5) vdWone).1 = .count 0 := by
  refine ⟨by with_unfolding_all decide, by with_unfolding_all decide, ?_⟩
  with_unfolding_all decide

/-- C7.  The rotation retry loop does NOT stop at the first accepted
orientation when that orientation's clash count is exactly 1: the loop
condition `n_clashes == True` (fldrs_helper.py line 438) compares an
integer to the Python bool `True`, and `1 == True` holds in Python, so
after an accepted orientation with one clash (well within the budget
`max_clash = 5`) the helper performs another rotation and returns the
later orientation's result instead of stopping.  The first conjunct
shows the first orientation is accepted (a plain count, 1 ≤ 5); the
last shows the helper returns the result and fragment of the second
orientation. -/
theorem rotation_retry_continues_after_accepted_count_one :
    count_clashes_fldrs c1parent c7fragA (some nIDRcase) 5 (1/2) vdWone
      = .count 1 ∧
    (1 : ℕ) ≤ 5 ∧
    clash_and_rotate_helper c7stream "frag.pdb" c1parent (some nIDRcase)
      5 3 (1/2) vdWone = (.count 0, c7fragB, "frag.pdb") := by
  refine ⟨by with_unfolding_all decide, by decide, ?_⟩
  with_unfolding_all decide

lemma nidrScan_cIdx_lt (names : List String) (seqs : List Int)
    (lastSeq : Int) :
    ∀ (fuel : ℕ) (st : AnchorIdx), fuel ≤ seqs.length →
    (∀ k, st.cIdx = some k → k < seqs.length) →
    ∀ k, (nidrScan names seqs lastSeq fuel st).cIdx = some k →
      k < seqs.length := by
  intro fuel
  induction fuel with
  | zero => intro st _ hst k hk; exact hst k (by simpa [nidrScan] using hk)
  | succ rem ih =>
      intro st hfuel hst k hk
      have hrem : rem ≤ seqs.length := Nat.le_of_succ_le hfuel
      have hltrem : rem < seqs.length := hfuel
      rw [nidrScan] at hk
      split_ifs at hk with h1 h2 h3 h4
      · exact ih { st with nIdx := some rem } hrem
          (fun k' hk' => hst k' hk') k hk
      · exact ih { st with caIdx := some rem } hrem
          (fun k' hk' => hst k' hk') k hk
      · refine ih _ hrem ?_ k hk
        intro k' hk'
        simp only [Option.some.injEq] at hk'
        omega
      · exact hst k hk
      · exact ih _ hrem hst k hk

lemma cidrScan_cIdx_lt (names : List String) (seqs : List Int)
    (firstSeq : Int) :
    ∀ (fuel : ℕ) (st : AnchorIdx), fuel ≤ seqs.length →
    (∀ k, st.cIdx = some k → k < seqs.length) →
    ∀ k, (cidrScan names seqs firstSeq fuel st).cIdx = some k →
      k < seqs.length := by
  intro fuel
  induction fuel with
  | zero => intro st _ hst k hk; exact hst k (by simpa [cidrScan] using hk)
  | succ rem ih =>
      intro st hfuel hst k hk
      have hrem : rem ≤ seqs.length := Nat.le_of_succ_le hfuel
      rw [cidrScan] at hk
      split_ifs at hk with h1 h2 h3 h4
      · exact ih { st with nIdx := some (seqs.length - (rem + 1)) } hrem
          (fun k' hk' => hst k' hk') k hk
      · exact ih { st with caIdx := some (seqs.length - (rem + 1)) } hrem
          (fun k' hk' => hst k' hk') k hk
      · refine ih _ hrem ?_ k hk
        intro k' hk'
        simp only [Option.some.injEq] at hk'
        omega
      · exact hst k hk
      · exact ih _ hrem hst k hk

lemma idrTermIdx_cIdx_lt (sample : Arr) (case : String) (k : ℕ)
    (hk : (idrTermIdx sample case).cIdx = some k) : k < sample.length := by
  unfold idrTermIdx at hk
  split_ifs at hk
  · have := nidrScan_cIdx_lt (sample.map (·.name)) (sample.map (·.resSeq))
      (pyIdx (sample.map (·.resSeq)) (((sample.map (·.resSeq)).length : Int) - 1) 0)
      (sample.map (·.resSeq)).length {} le_rfl (by intro k' hk'; simp at hk')
      k hk
    simpa using this
  · have := cidrScan_cIdx_lt (sample.map (·.name)) (sample.map (·.resSeq))
      (pyIdx (sample.map (·.resSeq)) 0 0)
      (sample.map (·.resSeq)).length {} le_rfl (by intro k' hk'; simp at hk')
      k hk
    simpa using this

lemma coordsOf_setCoords (a : Atom) (v : Vec3) :
    coordsOf (setCoords a v) = v := rfl

lemma round3_sub_abs (q : ℚ) : |round3 q - q| ≤ 1/2000 := by
  have h : |(1000 * q : ℚ) - round (1000 * q)| ≤ 1/2 := abs_sub_round _
  have : round3 q - q = -(((1000 * q) - (round (1000 * q) : ℚ)) / 1000) := by
    unfold round3
    ring
  rw [this, abs_neg, abs_div]
  have h1000 : |(1000 : ℚ)| = 1000 := by norm_num
  rw [h1000]
  linarith

lemma sq_round3_sub (q : ℚ) : (round3 q - q) ^ 2 ≤ 1/4000000 := by
  have h := round3_sub_abs q
  have h2 : (round3 q - q) ^ 2 = |round3 q - q| ^ 2 := (sq_abs _).symm
  rw [h2]
  have habs : (0 : ℚ) ≤ |round3 q - q| := abs_nonneg _
  nlinarith

lemma sqDistV_round3v (t : Vec3) : sqDistV (round3v t) t ≤ 1/1000000 := by
  have hx := sq_round3_sub (vx t)
  have hy := sq_round3_sub (vy t)
  have hz := sq_round3_sub (vz t)
  simp only [sqDistV, round3v, vx, vy, vz] at hx hy hz ⊢
  linarith

lemma getD_map_lt (l : Arr) (f : Atom → Atom) (i : ℕ) (h : i < l.length) :
    (l.map f).getD i {} = f (l.getD i {}) := by
  rw [List.getD_eq_getElem?_getD, List.getElem?_map,
    List.getD_eq_getElem?_getD, List.getElem?_eq_getElem h]
  simp

lemma vadd_vsub_cancel (t r : Vec3) : vadd (vsub t r) r = t := by
  obtain ⟨a, b, c⟩ := t
  obtain ⟨d, e, f⟩ := r
  simp [vadd, vsub, vx, vy, vz]

/-- C6.  After `align_coords`, re-measuring the fragment's anchor
reference atom (the `idr_term_idx["C"]` atom, the one the translation
step targets) gives exactly the 3-decimal rounding of the target
anchor's first point — hence coordinates within 1e-3 Å of it
(squared distance at most 1e-6).  This holds for every rotation the
external SVD routine may return. -/
theorem align_anchor_matches_target
    (sample : Arr) (target : Mat3) (case : String) (svdRot : Mat3 → Mat3)
    (out : Arr) (hout : align_coords sample target case svdRot = some out)
    (ic : ℕ) (hic : (idrTermIdx sample case).cIdx = some ic) :
    coordsOf (out.getD ic {}) = round3v target.1 ∧
    sqDistV (coordsOf (out.getD ic {})) target.1 ≤ 1/1000000 := by
  have hlen : ic < sample.length := idrTermIdx_cIdx_lt sample case ic hic
  unfold align_coords at hout
  dsimp only at hout
  rw [hic] at hout
  cases hn : (idrTermIdx sample case).nIdx with
  | none => rw [hn] at hout; simp at hout
  | some im =>
    rw [hn] at hout
    cases hca : (idrTermIdx sample case).caIdx with
    | none => rw [hca] at hout; simp at hout
    | some ia =>
      rw [hca] at hout
      simp only [Option.some.injEq] at hout
      have hout' : out = _ := hout.symm
      subst hout'
      have hrotlen : ic < (sample.map (fun a =>
          setCoords a (mulRowMat (coordsOf a)
            (svdRot (covMat
              (center3 (coordsOf (sample.getD ic {}),
                coordsOf (sample.getD im {}),
                coordsOf (sample.getD ia {})))
              (center3 target)))))).length := by
        simpa using hlen
      rw [getD_map_lt _ _ _ hrotlen]
      rw [coordsOf_setCoords, vadd_vsub_cancel]
      exact ⟨rfl, sqDistV_round3v target.1⟩

/-- C6 witness: for the concrete fragment, target and identity
rotation, the aligned anchor C atom lands on the rounded target point,
within 1e-3 Å. -/
theorem align_anchor_matches_target_witness :
    coordsOf (((align_coords c6sample c6target cIDRcase svdId).getD
      []).getD 2 {}) = round3v c6target.1 ∧
    sqDistV (coordsOf (((align_coords c6sample c6target cIDRcase
      svdId).getD []).getD 2 {})) c6target.1 ≤ 1/1000000 :=
  align_anchor_matches_target c6sample c6target cIDRcase svdId
    ((align_coords c6sample c6target cIDRcase svdId).getD [])
    (by with_unfolding_all decide) 2 (by with_unfolding_all decide)

lemma offsetScan_mem (idrC idrCA ntermN ntermCA : List RVec3) :
    ∀ (fuel i0 j : ℕ),
      j ∈ offsetScan idrC idrCA ntermN ntermCA fuel i0 ↔
      i0 ≤ j ∧ j < i0 + fuel ∧ j + 1 < ntermN.length ∧
      j + 1 < ntermCA.length ∧ gateAt idrC idrCA ntermN ntermCA j := by
  intro fuel
  induction fuel with
  | zero =>
      intro i0 j
      simp only [offsetScan, List.not_mem_nil, false_iff]
      rintro ⟨h1, h2, -⟩
      omega
  | succ fuel ih =>
      intro i0 j
      rw [offsetScan]
      by_cases hb : i0 + 1 < ntermN.length ∧ i0 + 1 < ntermCA.length
      · rw [if_pos hb]
        by_cases hg : gateAt idrC idrCA ntermN ntermCA i0
        · rw [if_pos hg]
          simp only [List.mem_cons, ih]
          constructor
          · rintro (rfl | ⟨h1, h2, h3, h4, h5⟩)
            · exact ⟨le_rfl, by omega, hb.1, hb.2, hg⟩
            · exact ⟨by omega, by omega, h3, h4, h5⟩
          · rintro ⟨h1, h2, h3, h4, h5⟩
            rcases Nat.eq_or_lt_of_le h1 with rfl | hlt
            · exact Or.inl rfl
            · exact Or.inr ⟨hlt, by omega, h3, h4, h5⟩
        · rw [if_neg hg]
          rw [ih]
          constructor
          · rintro ⟨h1, h2, h3, h4, h5⟩
            exact ⟨by omega, by omega, h3, h4, h5⟩
          · rintro ⟨h1, h2, h3, h4, h5⟩
            rcases Nat.eq_or_lt_of_le h1 with rfl | hlt
            · exact absurd h5 hg
            · exact ⟨hlt, by omega, h3, h4, h5⟩
      · rw [if_neg hb]
        simp only [List.not_mem_nil, false_iff]
        rintro ⟨h1, h2, h3, h4, -⟩
        exact hb ⟨by omega, by omega⟩

lemma offsetScan_head (idrC idrCA ntermN ntermCA : List RVec3) :
    ∀ (fuel i0 j : ℕ),
      (offsetScan idrC idrCA ntermN ntermCA fuel i0).head? = some j →
      gateAt idrC idrCA ntermN ntermCA j ∧
      ∀ m, i0 ≤ m → m < j → ¬ gateAt idrC idrCA ntermN ntermCA m := by
  intro fuel
  induction fuel with
  | zero => intro i0 j h; simp [offsetScan] at h
  | succ fuel ih =>
      intro i0 j h
      rw [offsetScan] at h
      by_cases hb : i0 + 1 < ntermN.length ∧ i0 + 1 < ntermCA.length
      · rw [if_pos hb] at h
        by_cases hg : gateAt idrC idrCA ntermN ntermCA i0
        · rw [if_pos hg] at h
          simp only [List.head?_cons, Option.some.injEq] at h
          subst h
          exact ⟨hg, fun m h1 h2 => absurd (lt_of_le_of_lt h1 h2) (lt_irrefl _)⟩
        · rw [if_neg hg] at h
          obtain ⟨hgj, hmin⟩ := ih (i0 + 1) j h
          refine ⟨hgj, fun m h1 h2 => ?_⟩
          rcases Nat.eq_or_lt_of_le h1 with rfl | hlt
          · exact hg
          · exact hmin m hlt h2
      · rw [if_neg hb] at h
        simp at h

/-- C4.  For one candidate of `sliding_window`, an offset's junction is
accepted (its body runs) exactly when all three geometric gates hold —
N–C distance in [1.32, 1.56] Å, Cα–C···N angle in [1.91, 2.15] rad, and
C–Cα distance in [2.2, 2.7] Å — at an offset the scan reaches (within
the candidate's atom lists); and the first accepted offset is the least
offset satisfying the gates: the scan is greedy and in-order, with no
global search. -/
theorem sliding_window_first_fit_gates
    (idrC idrCA ntermN ntermCA : List RVec3) (i : ℕ) :
    (i ∈ acceptedOffsets idrC idrCA ntermN ntermCA ↔
      i < idrC.length ∧ i + 1 < ntermN.length ∧ i + 1 < ntermCA.length ∧
      gateAt idrC idrCA ntermN ntermCA i) ∧
    ((acceptedOffsets idrC idrCA ntermN ntermCA).head? = some i →
      gateAt idrC idrCA ntermN ntermCA i ∧
      ∀ m < i, ¬ gateAt idrC idrCA ntermN ntermCA m) := by
  constructor
  · rw [acceptedOffsets, offsetScan_mem]
    constructor
    · rintro ⟨-, h2, h3, h4, h5⟩
      exact ⟨by omega, h3, h4, h5⟩
    · rintro ⟨h1, h3, h4, h5⟩
      exact ⟨Nat.zero_le _, by omega, h3, h4, h5⟩
  · intro h
    obtain ⟨hg, hmin⟩ := offsetScan_head idrC idrCA ntermN ntermCA
      idrC.length 0 i h
    exact ⟨hg, fun m hm => hmin m (Nat.zero_le _) hm⟩

lemma wCN : rdist ((0:ℝ),0,0) ((7/5:ℝ),0,0) = 7/5 := by
  unfold rdist rnorm rsub
  dsimp only
  rw [show ((0:ℝ) - 7/5)^2 + (0 - 0)^2 + (0 - 0)^2 = (7/5)^2 by norm_num]
  exact Real.sqrt_sq (by norm_num)

lemma wCCA : rdist ((0:ℝ),0,0) ((5/2:ℝ),0,0) = 5/2 := by
  unfold rdist rnorm rsub
  dsimp only
  rw [show ((0:ℝ) - 5/2)^2 + (0 - 0)^2 + (0 - 0)^2 = (5/2)^2 by norm_num]
  exact Real.sqrt_sq (by norm_num)

lemma wAng : rangle (-(1/2 : ℝ), Real.sqrt 3 / 2, 0) ((0:ℝ),0,0) ((7/5:ℝ),0,0)
    = 2 * Real.pi / 3 := by
  have hsq3 : Real.sqrt 3 ^ 2 = 3 := Real.sq_sqrt (by norm_num)
  unfold rangle rdot rnorm rsub
  dsimp only
  have hab : Real.sqrt ((-(1/2:ℝ) - 0)^2 + (Real.sqrt 3 / 2 - 0)^2 + (0 - 0)^2)
      = 1 := by
    rw [show (-(1/2:ℝ) - 0)^2 + (Real.sqrt 3 / 2 - 0)^2 + (0 - 0)^2 = 1 by
      field_simp; nlinarith [hsq3]]
    exact Real.sqrt_one
  have hcb : Real.sqrt (((7/5:ℝ) - 0)^2 + (0 - 0)^2 + (0 - 0)^2) = 7/5 := by
    rw [show ((7/5:ℝ) - 0)^2 + (0 - 0)^2 + (0 - 0)^2 = (7/5)^2 by norm_num]
    exact Real.sqrt_sq (by norm_num)
  rw [hab, hcb]
  rw [show ((-(1/2:ℝ) - 0) * (7/5 - 0) + (Real.sqrt 3 / 2 - 0) * (0 - 0) +
    (0 - 0) * (0 - 0)) / (1 * (7/5)) = -(1/2) by field_simp; ring]
  rw [Real.arccos_neg]
  rw [show ((1:ℝ)/2) = Real.cos (Real.pi / 3) by rw [Real.cos_pi_div_three]]
  rw [Real.arccos_cos (by positivity) (by linarith [Real.pi_pos])]
  ring

lemma wGateAt0 : gateAt wIdrC wIdrCA wNtermN wNtermCA 0 := by
  have h0 : wIdrCA.getD 0 ((0:ℝ),0,0) = (-(1/2 : ℝ), Real.sqrt 3 / 2, 0) := rfl
  have h1 : wIdrC.getD 0 ((0:ℝ),0,0) = ((0:ℝ), 0, 0) := rfl
  have h2 : wNtermN.getD 1 ((0:ℝ),0,0) = ((7/5 : ℝ), 0, 0) := rfl
  have h3 : wNtermCA.getD 1 ((0:ℝ),0,0) = ((5/2 : ℝ), 0, 0) := rfl
  rw [gateAt, h0, h1, h2, h3, junctionGates, wCN, wCCA, wAng]
  have hlt : Real.pi < 3.15 := Real.pi_lt_d2
  have hgt : Real.pi > 3.141592 := Real.pi_gt_d6
  norm_num
  constructor
  · linarith
  · linarith

/-- C4 witness: on the concrete candidate geometry the gates hold at
offset 0 (distances 1.4 Å and 2.5 Å, angle 2π/3 rad), offset 0 is
accepted, it is the head of the accepted list, and no earlier offset
passes the gates. -/
theorem sliding_window_first_fit_gates_witness :
    0 ∈ acceptedOffsets wIdrC wIdrCA wNtermN wNtermCA ∧
    gateAt wIdrC wIdrCA wNtermN wNtermCA 0 ∧
    (∀ m < 0, ¬ gateAt wIdrC wIdrCA wNtermN wNtermCA m) := by
  have hlist : acceptedOffsets wIdrC wIdrCA wNtermN wNtermCA = [0] := by
    rw [acceptedOffsets]
    show offsetScan wIdrC wIdrCA wNtermN wNtermCA 1 0 = [0]
    rw [offsetScan, if_pos (by refine ⟨?_, ?_⟩ <;> simp [wNtermN, wNtermCA]),
      if_pos wGateAt0, offsetScan]
  have hhead : (acceptedOffsets wIdrC wIdrCA wNtermN wNtermCA).head?
      = some 0 := by rw [hlist]; rfl
  refine ⟨?_, ?_, ?_⟩
  · exact (sliding_window_first_fit_gates wIdrC wIdrCA wNtermN wNtermCA 0).1.mpr
      ⟨by simp [wIdrC], by simp [wNtermN], by simp [wNtermCA], wGateAt0⟩
  · exact ((sliding_window_first_fit_gates wIdrC wIdrCA wNtermN
      wNtermCA 0).2 hhead).1
  · exact ((sliding_window_first_fit_gates wIdrC wIdrCA wNtermN
      wNtermCA 0).2 hhead).2

lemma pyIdx_nat (seq : List Int) (n : ℕ) (d : Int) :
    pyIdx seq (n : Int) d = seq.getD n d := by
  unfold pyIdx
  rw [if_neg (by omega)]
  simp

lemma dropFirstResLoop_succ (seq : List Int) (rem : ℕ) (a : Arr) :
    dropFirstResLoop seq (rem + 1) a =
      if (seq.length - (rem + 1)) + 1 < seq.length then
        if pyIdx seq (((seq.length - (rem + 1) : ℕ) : Int) + 1) 0 ≠
            pyIdx seq (((seq.length - (rem + 1)) : ℕ) : Int) 0 then
          a.drop 1
        else dropFirstResLoop seq rem (a.drop 1)
      else a := rfl

lemma dropLastResLoop_succ (seq : List Int) (rem : ℕ) (a : Arr) :
    dropLastResLoop seq (rem + 1) a =
      if pyIdx seq ((rem : Int) - 1) 0 ≠ pyIdx seq (rem : Int) 0 then
        a.dropLast
      else dropLastResLoop seq rem a.dropLast := rfl

lemma dropFirstResLoop_run (seq : List Int) (m : ℕ)
    (hm0 : 0 < m) (hmlt : m < seq.length)
    (hconst : ∀ j, j < m → seq.getD j 0 = seq.getD 0 0)
    (hdiff : seq.getD m 0 ≠ seq.getD 0 0) :
    ∀ d, d < m → ∀ a : Arr,
      dropFirstResLoop seq (seq.length - (m - 1 - d)) a = a.drop (d + 1) := by
  intro d
  induction d with
  | zero =>
      intro _ a
      have e1 : seq.length - (m - 1 - 0) = (seq.length - m) + 1 := by omega
      rw [e1, dropFirstResLoop_succ]
      have ei : seq.length - ((seq.length - m) + 1) = m - 1 := by omega
      rw [ei]
      rw [if_pos (by omega)]
      have hnext : pyIdx seq (((m - 1 : ℕ) : Int) + 1) 0 = seq.getD m 0 := by
        rw [show (((m - 1 : ℕ) : ℕ) : Int) + 1 = ((m : ℕ) : Int) by omega]
        exact pyIdx_nat seq m 0
      have hcurr : pyIdx seq (((m - 1) : ℕ) : Int) 0 = seq.getD 0 0 := by
        rw [pyIdx_nat]
        exact hconst (m - 1) (by omega)
      rw [hnext, hcurr, if_pos hdiff]
  | succ d ih =>
      intro hd a
      have e1 : seq.length - (m - 1 - (d + 1)) =
          (seq.length - (m - 1 - d)) + 1 := by omega
      rw [e1, dropFirstResLoop_succ]
      have ei : seq.length - ((seq.length - (m - 1 - d)) + 1) =
          m - 1 - (d + 1) := by omega
      rw [ei]
      rw [if_pos (by omega)]
      have hc1 : pyIdx seq (((m - 1 - (d + 1)) : ℕ) : Int) 0
          = seq.getD 0 0 := by
        rw [pyIdx_nat]
        exact hconst _ (by omega)
      have hc2 : pyIdx seq ((((m - 1 - (d + 1)) : ℕ) : Int) + 1) 0
          = seq.getD 0 0 := by
        rw [show (((m - 1 - (d + 1)) : ℕ) : Int) + 1
          = (((m - 1 - (d + 1)) + 1 : ℕ) : Int) by push_cast; ring]
        rw [pyIdx_nat]
        exact hconst _ (by omega)
      rw [hc1, hc2, if_neg (by simp)]
      rw [ih (by omega) (a.drop 1), List.drop_drop]
      congr 1
      omega

lemma getD_mem_of_lt (l : Arr) (j : ℕ) (hj : j < l.length) :
    l.getD j {} ∈ l := by
  rw [List.getD_eq_getElem _ _ hj]
  exact List.getElem_mem hj

lemma getD_map_resSeq (l : Arr) (n : ℕ) :
    (l.map (·.resSeq)).getD n 0 = (l.getD n {}).resSeq := by
  rw [List.getD_eq_getElem?_getD, List.getElem?_map, List.getD_eq_getElem?_getD]
  cases h : l[n]? <;> simp [h, Atom.resSeq]

lemma dropLastIter_append (A : Arr) :
    ∀ B : Arr, dropLastIter B.length (A ++ B) = A := by
  intro B
  induction B using List.reverseRecOn with
  | nil => simp [dropLastIter]
  | append_singleton B' b ih =>
      have hlen : (B' ++ [b]).length = B'.length + 1 := by simp
      rw [hlen, dropLastIter, show A ++ (B' ++ [b]) = (A ++ B') ++ [b] by simp,
        List.dropLast_concat]
      exact ih

lemma dropFirstResLoop_append (G H : Arr) (g : Int)
    (hG : G ≠ []) (hH : H ≠ [])
    (hgc : ∀ a ∈ G, a.resSeq = g)
    (hhead : ∀ x ∈ H.head?, x.resSeq ≠ g) :
    dropFirstResLoop ((G ++ H).map (·.resSeq))
      ((G ++ H).map (·.resSeq)).length (G ++ H) = H := by
  have hGpos : 0 < G.length := List.length_pos.mpr hG
  have hHpos : 0 < H.length := List.length_pos.mpr hH
  have hlen : ((G ++ H).map (·.resSeq)).length = G.length + H.length := by simp
  have hget0 : ((G ++ H).map (·.resSeq)).getD 0 0 = g := by
    rw [getD_map_resSeq, List.getD_append _ _ _ _ hGpos]
    exact hgc _ (getD_mem_of_lt _ _ hGpos)
  have hconst : ∀ j, j < G.length →
      ((G ++ H).map (·.resSeq)).getD j 0 =
      ((G ++ H).map (·.resSeq)).getD 0 0 := by
    intro j hj
    rw [hget0, getD_map_resSeq, List.getD_append _ _ _ _ hj]
    exact hgc _ (getD_mem_of_lt _ _ hj)
  have hdiff : ((G ++ H).map (·.resSeq)).getD G.length 0 ≠
      ((G ++ H).map (·.resSeq)).getD 0 0 := by
    rw [hget0, getD_map_resSeq, List.getD_append_right _ _ _ _ le_rfl]
    have hmem : H.getD (G.length - G.length) {} ∈ H.head? := by
      rw [Nat.sub_self]
      cases H with
      | nil => exact absurd rfl hH
      | cons b rest => simp [List.getD]
    exact hhead _ hmem
  have hmain := dropFirstResLoop_run ((G ++ H).map (·.resSeq)) G.length
    hGpos (by omega) hconst hdiff (G.length - 1) (by omega) (G ++ H)
  rw [show ((G ++ H).map (·.resSeq)).length -
      (G.length - 1 - (G.length - 1)) = ((G ++ H).map (·.resSeq)).length
      by omega] at hmain
  rw [hmain, show G.length - 1 + 1 = G.length by omega, List.drop_left]

lemma dropLastResLoop_run (seq : List Int) (p m : ℕ)
    (_hm0 : 0 < m) (hp0 : 0 < p)
    (hconst : ∀ j, p ≤ j → j < p + m → seq.getD j 0 = seq.getD p 0)
    (hdiff : seq.getD (p - 1) 0 ≠ seq.getD p 0) :
    ∀ d, d < m → ∀ a : Arr,
      dropLastResLoop seq (p + d + 1) a = dropLastIter (d + 1) a := by
  intro d
  induction d with
  | zero =>
      intro _ a
      rw [show p + 0 + 1 = p + 1 by ring, dropLastResLoop_succ]
      have hprev : pyIdx seq ((p : Int) - 1) 0 = seq.getD (p - 1) 0 := by
        rw [show ((p : ℕ) : Int) - 1 = (((p - 1 : ℕ) : ℕ) : Int) by omega]
        exact pyIdx_nat seq (p - 1) 0
      have hcurr : pyIdx seq ((p : ℕ) : Int) 0 = seq.getD p 0 :=
        pyIdx_nat seq p 0
      rw [hprev, hcurr, if_pos hdiff]
      rfl
  | succ d ih =>
      intro hd a
      rw [show p + (d + 1) + 1 = (p + d + 1) + 1 by ring, dropLastResLoop_succ]
      have hprev : pyIdx seq (((p + d + 1 : ℕ) : Int) - 1) 0
          = seq.getD p 0 := by
        rw [show (((p + d + 1 : ℕ) : ℕ) : Int) - 1
          = (((p + d : ℕ) : ℕ) : Int) by omega]
        rw [pyIdx_nat]
        exact hconst (p + d) (by omega) (by omega)
      have hcurr : pyIdx seq ((p + d + 1 : ℕ) : Int) 0 = seq.getD p 0 := by
        rw [pyIdx_nat]
        exact hconst (p + d + 1) (by omega) (by omega)
      rw [hprev, hcurr, if_neg (by simp)]
      rw [ih (by omega) a.dropLast]
      rfl

lemma dropLastResLoop_append (A B : Arr) (r : Int)
    (hA : A ≠ []) (hB : B ≠ [])
    (hbc : ∀ a ∈ B, a.resSeq = r)
    (hlast : (A.getD (A.length - 1) {}).resSeq ≠ r) :
    dropLastResLoop ((A ++ B).map (·.resSeq))
      ((A ++ B).map (·.resSeq)).length (A ++ B) = A := by
  have hApos : 0 < A.length := List.length_pos.mpr hA
  have hBpos : 0 < B.length := List.length_pos.mpr hB
  have hgetp : ((A ++ B).map (·.resSeq)).getD A.length 0 = r := by
    rw [getD_map_resSeq, List.getD_append_right _ _ _ _ le_rfl, Nat.sub_self]
    exact hbc _ (getD_mem_of_lt _ _ hBpos)
  have hconst : ∀ j, A.length ≤ j → j < A.length + B.length →
      ((A ++ B).map (·.resSeq)).getD j 0 =
      ((A ++ B).map (·.resSeq)).getD A.length 0 := by
    intro j h1 h2
    rw [hgetp, getD_map_resSeq, List.getD_append_right _ _ _ _ h1]
    exact hbc _ (getD_mem_of_lt _ _ (by omega))
  have hdiff : ((A ++ B).map (·.resSeq)).getD (A.length - 1) 0 ≠
      ((A ++ B).map (·.resSeq)).getD A.length 0 := by
    rw [hgetp, getD_map_resSeq, List.getD_append _ _ _ _ (by omega)]
    exact hlast
  have hmain := dropLastResLoop_run ((A ++ B).map (·.resSeq))
    A.length B.length hBpos hApos hconst hdiff (B.length - 1) (by omega)
    (A ++ B)
  rw [show A.length + (B.length - 1) + 1
    = ((A ++ B).map (·.resSeq)).length by simp; omega] at hmain
  rw [hmain, show B.length - 1 + 1 = B.length by omega, dropLastIter_append]

lemma renumberRes_map_head (c : Int) (a : Atom) (l : Arr) :
    ((renumberRes c (a :: l)).map (·.resSeq)).head? = some c := by
  cases l <;> rfl

lemma renumberRes_chain (l : Arr) :
    ∀ c : Int, resChainOK ((renumberRes c l).map (·.resSeq)) := by
  induction l with
  | nil => intro c; simp [renumberRes, resChainOK]
  | cons a rest ih =>
      intro c
      cases rest with
      | nil => simp [renumberRes, resChainOK]
      | cons b rest' =>
          rw [renumberRes]
          simp only [List.map_cons]
          rw [resChainOK, List.chain'_cons']
          refine ⟨?_, ih _⟩
          intro y hy
          rw [renumberRes_map_head] at hy
          simp only [Option.mem_def, Option.some.injEq] at hy
          subst hy
          by_cases hab : b.resSeq ≠ a.resSeq <;> simp [hab]

lemma canonicalizeFrom_map_resSeq :
    ∀ (k : ℕ) (l : Arr),
      (canonicalizeFrom k l).map (·.resSeq) = l.map (·.resSeq) := by
  intro k l
  induction l generalizing k with
  | nil => rfl
  | cons a rest ih => simp [canonicalizeFrom, ih]

lemma canonicalizeArr_map_resSeq (l : Arr) :
    (canonicalizeArr l).map (·.resSeq) = l.map (·.resSeq) :=
  canonicalizeFrom_map_resSeq 1 l

lemma pyIdx_last_map_resSeq (l : Arr) (hl : l ≠ []) :
    pyIdx (l.map (·.resSeq)) (((l.length : ℕ) : Int) - 1) 0 =
      (l.getD (l.length - 1) {}).resSeq := by
  have hpos : 0 < l.length := List.length_pos.mpr hl
  rw [show ((l.length : ℕ) : Int) - 1 = (((l.length - 1 : ℕ) : ℕ) : Int)
    by omega]
  rw [pyIdx_nat, getD_map_resSeq]

lemma map_resSeq_getLast (l : Arr) (hl : l ≠ []) :
    (l.map (·.resSeq)).getLast? = some ((l.getD (l.length - 1) {}).resSeq) := by
  have hpos : 0 < l.length := List.length_pos.mpr hl
  rw [List.getLast?_eq_getElem?, List.getElem?_map]
  rw [List.getD_eq_getElem _ _ (by omega : l.length - 1 < l.length)]
  rw [List.getElem?_eq_getElem (by simpa using (by omega : l.length - 1 < l.length))]
  simp

lemma chain_append_renumber (E H : Arr) (hE : E ≠ []) (hH : H ≠ [])
    (hchain : resChainOK (E.map (·.resSeq))) :
    resChainOK ((E ++
      renumberRes ((E.getD (E.length - 1) {}).resSeq + 1) H).map
      (·.resSeq)) := by
  rw [List.map_append, resChainOK, List.chain'_append]
  refine ⟨hchain, renumberRes_chain H _, ?_⟩
  intro x hx y hy
  rw [map_resSeq_getLast E hE] at hx
  simp only [Option.mem_def, Option.some.injEq] at hx
  subst hx
  cases H with
  | nil => exact absurd rfl hH
  | cons a rest =>
      rw [renumberRes_map_head] at hy
      simp only [Option.mem_def, Option.some.injEq] at hy
      subst hy
      right
      rfl

lemma findFirstIdx_run (p : Int → Bool) :
    ∀ (Ps rest : List Int), (∀ x ∈ Ps, p x = false) →
    (∀ h ∈ rest.head?, p h = true) → rest ≠ [] →
    findFirstIdx p (Ps ++ rest) = some Ps.length := by
  intro Ps
  induction Ps with
  | nil =>
      intro rest hp hh hne
      cases rest with
      | nil => exact absurd rfl hne
      | cons r t =>
          have hr : p r = true := hh r (by simp)
          simp [findFirstIdx, hr]
  | cons x Ps' ih =>
      intro rest hp hh hne
      have hx : p x = false := hp x (by simp)
      rw [List.cons_append, findFirstIdx, if_neg (by simp [hx])]
      rw [ih rest (fun y hy => hp y (by simp [hy])) hh hne]
      simp

lemma pyIdx_zero (seq : List Int) (d : Int) : pyIdx seq 0 d = seq.getD 0 d := by
  unfold pyIdx
  simp

/-- Core of the Break-IDR splice: `psurgeon` drops the fragment's first
residue `G`, removes from the folded structure exactly the residue runs
`L` (numbered `first_fld + lower - 1`) and `U` (numbered
`first_fld + upper`), renumbers the trimmed fragment `H` by the
constant offset `actual_lower - 2`, and inserts it at the position of
the first removed atom. -/
lemma psurgeon_break_splice_core (P L U S G H : Arr)
    (g aL aU lower upper : Int)
    (hG : G ≠ []) (hH : H ≠ [])
    (hgc : ∀ a ∈ G, a.resSeq = g)
    (hhead : ∀ x ∈ H.head?, x.resSeq ≠ g)
    (hP : P ≠ []) (hL : L ≠ [])
    (haL : aL = (P.getD 0 {}).resSeq + lower - 1)
    (haU : aU = (P.getD 0 {}).resSeq + upper)
    (hLc : ∀ a ∈ L, a.resSeq = aL)
    (hUc : ∀ a ∈ U, a.resSeq = aU)
    (hPc : ∀ a ∈ P, a.resSeq ≠ aL ∧ a.resSeq ≠ aU)
    (hSc : ∀ a ∈ S, a.resSeq ≠ aL ∧ a.resSeq ≠ aU) :
    psurgeon (.inl (G ++ H)) (P ++ L ++ U ++ S) breakIDRcase
      (lower, upper) =
      some (canonicalizeArr
        (P ++ H.map (fun a => { a with resSeq := a.resSeq + aL - 2 }) ++ S)) := by
  unfold psurgeon
  rw [if_neg (by decide), if_pos rfl]
  dsimp only
  have hfirst : pyIdx ((P ++ L ++ U ++ S).map (·.resSeq)) 0 0
      = (P.getD 0 {}).resSeq := by
    rw [pyIdx_zero, getD_map_resSeq]
    congr 1
    rw [show P ++ L ++ U ++ S = P ++ (L ++ U ++ S) by simp]
    exact List.getD_append _ _ _ _ (List.length_pos.mpr hP)
  rw [hfirst, ← haL, ← haU]
  have hdropF : dropFirstResLoop ((G ++ H).map (·.resSeq))
      ((G ++ H).map (·.resSeq)).length (G ++ H) = H :=
    dropFirstResLoop_append G H g hG hH hgc hhead
  rw [hdropF]
  have hregroup : P ++ L ++ U ++ S = P ++ (L ++ U ++ S) := by simp
  have hfind : findFirstIdx (fun r => r == aL || r == aU)
      ((P ++ L ++ U ++ S).map (·.resSeq)) = some P.length := by
    rw [hregroup, List.map_append]
    rw [findFirstIdx_run]
    · simp
    · intro x hx
      simp only [List.mem_map] at hx
      obtain ⟨a, ha, rfl⟩ := hx
      have := hPc a ha
      simp [this.1, this.2]
    · intro h hmem
      cases L with
      | nil => exact absurd rfl hL
      | cons b t =>
          simp only [List.cons_append, List.map_cons, List.head?_cons,
            Option.mem_def, Option.some.injEq] at hmem
          subst hmem
          simp [hLc b (by simp)]
    · cases L with
      | nil => exact absurd rfl hL
      | cons b t => simp
  rw [hfind]
  have hfilter : (P ++ L ++ U ++ S).filter
      (fun a => ! (a.resSeq == aL || a.resSeq == aU)) = P ++ S := by
    rw [hregroup, List.filter_append, List.filter_append, List.filter_append]
    have h1 : P.filter (fun a => ! (a.resSeq == aL || a.resSeq == aU)) = P := by
      rw [List.filter_eq_self]
      intro a ha
      have := hPc a ha
      simp [this.1, this.2]
    have h2 : L.filter (fun a => ! (a.resSeq == aL || a.resSeq == aU)) = [] := by
      rw [List.filter_eq_nil_iff]
      intro a ha
      simp [hLc a ha]
    have h3 : U.filter (fun a => ! (a.resSeq == aL || a.resSeq == aU)) = [] := by
      rw [List.filter_eq_nil_iff]
      intro a ha
      simp [hUc a ha]
    have h4 : S.filter (fun a => ! (a.resSeq == aL || a.resSeq == aU)) = S := by
      rw [List.filter_eq_self]
      intro a ha
      have := hSc a ha
      simp [this.1, this.2]
    rw [h1, h2, h3, h4]
    simp
  rw [hfilter]
  dsimp only
  rw [show (P ++ S).take P.length = P from List.take_left P S]
  rw [show (P ++ S).drop P.length = S from List.drop_left P S]

lemma psurgeon_nidr_eq (A B C D : Arr) (rb rc : Int) (ranges : Int × Int)
    (hA : A ≠ []) (hB : B ≠ []) (hbc : ∀ a ∈ B, a.resSeq = rb)
    (hAlast : (A.getD (A.length - 1) {}).resSeq ≠ rb)
    (hC : C ≠ []) (hD : D ≠ []) (hcc : ∀ a ∈ C, a.resSeq = rc)
    (hDhead : ∀ x ∈ D.head?, x.resSeq ≠ rc) :
    psurgeon (.inl (A ++ B)) (C ++ D) nIDRcase ranges =
      some (canonicalizeArr (A ++ D)) := by
  unfold psurgeon
  rw [if_pos rfl]
  dsimp only
  rw [dropLastResLoop_append A B rb hA hB hbc hAlast,
    dropFirstResLoop_append C D rc hC hD hcc hDhead]

lemma psurgeon_cidr_eq (E F G H : Arr) (rf rg : Int) (ranges : Int × Int)
    (hE : E ≠ []) (hF : F ≠ []) (hfc : ∀ a ∈ F, a.resSeq = rf)
    (hElast : (E.getD (E.length - 1) {}).resSeq ≠ rf)
    (hG : G ≠ []) (hH : H ≠ []) (hgc : ∀ a ∈ G, a.resSeq = rg)
    (hHhead : ∀ x ∈ H.head?, x.resSeq ≠ rg) :
    psurgeon (.inl (G ++ H)) (E ++ F) cIDRcase ranges =
      some (canonicalizeArr
        (E ++ renumberRes ((E.getD (E.length - 1) {}).resSeq + 1) H)) := by
  unfold psurgeon
  rw [if_neg (by decide), if_neg (by decide), if_pos rfl]
  dsimp only
  rw [dropLastResLoop_append E F rf hE hF hfc hElast,
    dropFirstResLoop_append G H rg hG hH hgc hHhead,
    pyIdx_last_map_resSeq E hE]

lemma psurgeon_comb_eq (A B C D W V G H : Arr) (rb rc rv rg : Int)
    (ranges : Int × Int)
    (hA : A ≠ []) (hB : B ≠ []) (hbc : ∀ a ∈ B, a.resSeq = rb)
    (hAlast : (A.getD (A.length - 1) {}).resSeq ≠ rb)
    (hC : C ≠ []) (hD : D ≠ []) (hcc : ∀ a ∈ C, a.resSeq = rc)
    (hDhead : ∀ x ∈ D.head?, x.resSeq ≠ rc)
    (hAD : A ++ D = W ++ V)
    (hW : W ≠ []) (hV : V ≠ []) (hvc : ∀ a ∈ V, a.resSeq = rv)
    (hWlast : (W.getD (W.length - 1) {}).resSeq ≠ rv)
    (hG : G ≠ []) (hH : H ≠ []) (hgc : ∀ a ∈ G, a.resSeq = rg)
    (hHhead : ∀ x ∈ H.head?, x.resSeq ≠ rg) :
    psurgeon (.inr (A ++ B, G ++ H)) (C ++ D) (nIDRcase ++ cIDRcase)
      ranges =
      some (canonicalizeArr
        (W ++ renumberRes ((W.getD (W.length - 1) {}).resSeq + 1) H)) := by
  unfold psurgeon
  rw [if_neg (by decide), if_neg (by decide), if_neg (by decide),
    if_pos rfl]
  dsimp only
  rw [dropLastResLoop_append A B rb hA hB hbc hAlast,
    dropFirstResLoop_append C D rc hC hD hcc hDhead]
  rw [hAD]
  rw [dropLastResLoop_append W V rv hW hV hvc hWlast,
    dropFirstResLoop_append G H rg hG hH hgc hHhead,
    pyIdx_last_map_resSeq W hW]

/-- C5, counterexample.  For a folded structure with residues 1..5 and
boundary range (2, 4), the claim says every folded residue strictly
within the range is removed; but `psurgeon` keeps residue 3 (strictly
inside (2, 4)) and instead removes residue 5 = first+4, which is not
strictly inside the range. -/
theorem psurgeon_break_keeps_strictly_inner_residue :
    ((psurgeon (.inl cx5idr) cx5fld breakIDRcase (2, 4)).getD []).any
        (fun a => a.name == "FLD3") = true ∧
    ((2 : Int) < 3 ∧ (3 : Int) < 4) ∧
    ((psurgeon (.inl cx5idr) cx5fld breakIDRcase (2, 4)).getD []).all
        (fun a => a.name != "FLD5") = true := by
  refine ⟨?_, by decide, ?_⟩ <;> with_unfolding_all decide

/-- C5, amended.  In the Break-IDR case, `psurgeon` drops the
fragment's first residue, removes from the folded structure exactly the
residues numbered `first_fld + lower - 1` and `first_fld + upper` (the
two residues flanking the break — not the residues strictly inside the
boundary range), renumbers the trimmed fragment's residues by the
constant offset `actual_lower - 2`, and inserts the fragment's atoms at
the position of the first removed atom. -/
theorem psurgeon_break_splice (P L U S G H : Arr)
    (g aL aU lower upper : Int)
    (hG : G ≠ []) (hH : H ≠ [])
    (hgc : ∀ a ∈ G, a.resSeq = g)
    (hhead : ∀ x ∈ H.head?, x.resSeq ≠ g)
    (hP : P ≠ []) (hL : L ≠ [])
    (haL : aL = (P.getD 0 {}).resSeq + lower - 1)
    (haU : aU = (P.getD 0 {}).resSeq + upper)
    (hLc : ∀ a ∈ L, a.resSeq = aL)
    (hUc : ∀ a ∈ U, a.resSeq = aU)
    (hPc : ∀ a ∈ P, a.resSeq ≠ aL ∧ a.resSeq ≠ aU)
    (hSc : ∀ a ∈ S, a.resSeq ≠ aL ∧ a.resSeq ≠ aU) :
    psurgeon (.inl (G ++ H)) (P ++ L ++ U ++ S) breakIDRcase
      (lower, upper) =
      some (canonicalizeArr
        (P ++ H.map (fun a => { a with resSeq := a.resSeq + aL - 2 })
          ++ S)) :=
  psurgeon_break_splice_core P L U S G H g aL aU lower upper hG hH hgc
    hhead hP hL haL haU hLc hUc hPc hSc

/-- C5 witness: concrete Break splice with fragment residues 1..3 and
folded residues 1, 2, 5. -/
theorem psurgeon_break_splice_witness :
    psurgeon (.inl (c5G ++ c5H)) (c5P ++ c5L ++ c5U ++ c5S) breakIDRcase
      (2, 4) =
      some (canonicalizeArr
        (c5P ++ c5H.map (fun a => { a with resSeq := a.resSeq + 2 - 2 })
          ++ c5S)) :=
  psurgeon_break_splice c5P c5L c5U c5S c5G c5H 1 2 5 2 4
    (by decide) (by decide) (by with_unfolding_all decide)
    (by with_unfolding_all decide) (by decide) (by decide)
    (by with_unfolding_all decide) (by with_unfolding_all decide)
    (by with_unfolding_all decide) (by with_unfolding_all decide)
    (by with_unfolding_all decide) (by with_unfolding_all decide)

/-- C2, counterexample.  `psurgeon` on the N-terminal case performs no
renumbering, so a fragment numbered 1..2 grafted onto a folded
structure numbered 10..11 yields residue numbers [1, 1, 11, 11]: the
boundary jumps from 1 to 11 instead of increasing by exactly 1. -/
theorem psurgeon_nidr_numbering_gap :
    ((psurgeon (.inl c2idr) c2fld nIDRcase (0, 0)).getD []).map
      (·.resSeq) = [1, 1, 11, 11] ∧
    ¬ resChainOK [1, 1, 11, 11] := by
  refine ⟨?_, ?_⟩
  · with_unfolding_all decide
  · intro h
    rw [resChainOK, List.chain'_cons, List.chain'_cons,
      List.chain'_cons] at h
    omega

lemma resChainOK_cons (a b : Int) (l : List Int) :
    resChainOK (a :: b :: l) ↔
      (b = a ∨ b = a + 1) ∧ resChainOK (b :: l) := List.chain'_cons

lemma resChainOK_single (a : Int) : resChainOK [a] := List.chain'_singleton a

/-- C2, amended.  `psurgeon`'s output is, in every disorder case, the
serial/chain/segid-canonicalized concatenation of contiguous slices of
the source arrays (so intra-residue atom order is preserved), and its
residue numbers increase by exactly 1 at every residue boundary with no
gaps or repeats — PROVIDED the inputs are residue-grouped and their
numbers align at each seam the code does not renumber: for N-IDR the
whole spliced numbering must already be contiguous (the code performs
no renumbering there), and for Break-IDR the kept folded runs must meet
the offset-renumbered fragment contiguously; for C-IDR and N+C the code
renumbers the appended fragment itself, so only the untouched folded
part needs a contiguous numbering. -/
theorem psurgeon_graft_numbering :
    (∀ (A B C D : Arr) (rb rc : Int) (ranges : Int × Int),
      A ≠ [] → B ≠ [] → (∀ a ∈ B, a.resSeq = rb) →
      (A.getD (A.length - 1) ({} : Atom)).resSeq ≠ rb →
      C ≠ [] → D ≠ [] → (∀ a ∈ C, a.resSeq = rc) →
      (∀ x ∈ D.head?, x.resSeq ≠ rc) →
      resChainOK ((A ++ D).map (fun a : Atom => a.resSeq)) →
      psurgeon (.inl (A ++ B)) (C ++ D) nIDRcase ranges =
        some (canonicalizeArr (A ++ D)) ∧
      resChainOK ((canonicalizeArr (A ++ D)).map (fun a : Atom => a.resSeq))) ∧
    (∀ (P L U S G H : Arr) (g aL aU lower upper : Int),
      G ≠ [] → H ≠ [] → (∀ a ∈ G, a.resSeq = g) →
      (∀ x ∈ H.head?, x.resSeq ≠ g) →
      P ≠ [] → L ≠ [] →
      aL = (P.getD 0 ({} : Atom)).resSeq + lower - 1 →
      aU = (P.getD 0 ({} : Atom)).resSeq + upper →
      (∀ a ∈ L, a.resSeq = aL) → (∀ a ∈ U, a.resSeq = aU) →
      (∀ a ∈ P, a.resSeq ≠ aL ∧ a.resSeq ≠ aU) →
      (∀ a ∈ S, a.resSeq ≠ aL ∧ a.resSeq ≠ aU) →
      resChainOK ((P ++
        H.map (fun a : Atom => { a with resSeq := a.resSeq + aL - 2 }) ++ S).map
        (fun a : Atom => a.resSeq)) →
      psurgeon (.inl (G ++ H)) (P ++ L ++ U ++ S) breakIDRcase
        (lower, upper) =
        some (canonicalizeArr (P ++
          H.map (fun a : Atom => { a with resSeq := a.resSeq + aL - 2 }) ++ S)) ∧
      resChainOK ((canonicalizeArr (P ++
        H.map (fun a : Atom => { a with resSeq := a.resSeq + aL - 2 }) ++ S)).map
        (fun a : Atom => a.resSeq))) ∧
    (∀ (E F G H : Arr) (rf rg : Int) (ranges : Int × Int),
      E ≠ [] → F ≠ [] → (∀ a ∈ F, a.resSeq = rf) →
      (E.getD (E.length - 1) ({} : Atom)).resSeq ≠ rf →
      G ≠ [] → H ≠ [] → (∀ a ∈ G, a.resSeq = rg) →
      (∀ x ∈ H.head?, x.resSeq ≠ rg) →
      resChainOK (E.map (fun a : Atom => a.resSeq)) →
      psurgeon (.inl (G ++ H)) (E ++ F) cIDRcase ranges =
        some (canonicalizeArr
          (E ++ renumberRes ((E.getD (E.length - 1) ({} : Atom)).resSeq + 1) H)) ∧
      resChainOK ((canonicalizeArr
        (E ++ renumberRes ((E.getD (E.length - 1) ({} : Atom)).resSeq + 1) H)).map
        (fun a : Atom => a.resSeq))) ∧
    (∀ (A B C D W V G H : Arr) (rb rc rv rg : Int) (ranges : Int × Int),
      A ≠ [] → B ≠ [] → (∀ a ∈ B, a.resSeq = rb) →
      (A.getD (A.length - 1) ({} : Atom)).resSeq ≠ rb →
      C ≠ [] → D ≠ [] → (∀ a ∈ C, a.resSeq = rc) →
      (∀ x ∈ D.head?, x.resSeq ≠ rc) →
      A ++ D = W ++ V →
      W ≠ [] → V ≠ [] → (∀ a ∈ V, a.resSeq = rv) →
      (W.getD (W.length - 1) ({} : Atom)).resSeq ≠ rv →
      G ≠ [] → H ≠ [] → (∀ a ∈ G, a.resSeq = rg) →
      (∀ x ∈ H.head?, x.resSeq ≠ rg) →
      resChainOK (W.map (fun a : Atom => a.resSeq)) →
      psurgeon (.inr (A ++ B, G ++ H)) (C ++ D) (nIDRcase ++ cIDRcase)
        ranges =
        some (canonicalizeArr
          (W ++ renumberRes ((W.getD (W.length - 1) ({} : Atom)).resSeq + 1) H)) ∧
      resChainOK ((canonicalizeArr
        (W ++ renumberRes ((W.getD (W.length - 1) ({} : Atom)).resSeq + 1) H)).map
        (fun a : Atom => a.resSeq))) := by
  refine ⟨?_, ?_, ?_, ?_⟩
  · intro A B C D rb rc ranges hA hB hbc hAlast hC hD hcc hDhead hch
    refine ⟨psurgeon_nidr_eq A B C D rb rc ranges hA hB hbc hAlast hC hD
      hcc hDhead, ?_⟩
    rw [canonicalizeArr_map_resSeq]
    exact hch
  · intro P L U S G H g aL aU lower upper hG hH hgc hhead hP hL haL haU
      hLc hUc hPc hSc hch
    refine ⟨psurgeon_break_splice_core P L U S G H g aL aU lower upper
      hG hH hgc hhead hP hL haL haU hLc hUc hPc hSc, ?_⟩
    rw [canonicalizeArr_map_resSeq]
    exact hch
  · intro E F G H rf rg ranges hE hF hfc hElast hG hH hgc hHhead hch
    refine ⟨psurgeon_cidr_eq E F G H rf rg ranges hE hF hfc hElast hG hH
      hgc hHhead, ?_⟩
    rw [canonicalizeArr_map_resSeq]
    exact chain_append_renumber E H hE hH hch
  · intro A B C D W V G H rb rc rv rg ranges hA hB hbc hAlast hC hD hcc
      hDhead hAD hW hV hvc hWlast hG hH hgc hHhead hch
    refine ⟨psurgeon_comb_eq A B C D W V G H rb rc rv rg ranges hA hB hbc
      hAlast hC hD hcc hDhead hAD hW hV hvc hWlast hG hH hgc hHhead, ?_⟩
    rw [canonicalizeArr_map_resSeq]
    exact chain_append_renumber W H hW hH hch

/-- C2 witness: all four graft cases at concrete aligned inputs produce
the expected splice with contiguous residue numbering. -/
theorem psurgeon_graft_numbering_witness :
    (psurgeon (.inl (w2A ++ w2B)) (w2C ++ w2D) nIDRcase (0, 0) =
        some (canonicalizeArr (w2A ++ w2D)) ∧
      resChainOK ((canonicalizeArr (w2A ++ w2D)).map
        (fun a : Atom => a.resSeq))) ∧
    (psurgeon (.inl (c5G ++ c5H)) (c5P ++ c5L ++ c5U ++ c5S) breakIDRcase
        (2, 4) =
        some (canonicalizeArr (c5P ++
          c5H.map (fun a : Atom => { a with resSeq := a.resSeq + 2 - 2 })
          ++ c5S)) ∧
      resChainOK ((canonicalizeArr (c5P ++
        c5H.map (fun a : Atom => { a with resSeq := a.resSeq + 2 - 2 })
        ++ c5S)).map (fun a : Atom => a.resSeq))) ∧
    (psurgeon (.inl (w2G ++ w2H)) (w2E ++ w2F) cIDRcase (0, 0) =
        some (canonicalizeArr (w2E ++ renumberRes
          ((w2E.getD (w2E.length - 1) ({} : Atom)).resSeq + 1) w2H)) ∧
      resChainOK ((canonicalizeArr (w2E ++ renumberRes
        ((w2E.getD (w2E.length - 1) ({} : Atom)).resSeq + 1) w2H)).map
        (fun a : Atom => a.resSeq))) ∧
    (psurgeon (.inr (w2A ++ w2B, w2G ++ w2H)) (w2Cc ++ w2Dc)
        (nIDRcase ++ cIDRcase) (0, 0) =
        some (canonicalizeArr (w2W ++ renumberRes
          ((w2W.getD (w2W.length - 1) ({} : Atom)).resSeq + 1) w2H)) ∧
      resChainOK ((canonicalizeArr (w2W ++ renumberRes
        ((w2W.getD (w2W.length - 1) ({} : Atom)).resSeq + 1) w2H)).map
        (fun a : Atom => a.resSeq))) := by
  refine ⟨?_, ?_, ?_, ?_⟩
  · exact psurgeon_graft_numbering.1 w2A w2B w2C w2D 2 1 (0, 0)
      (by decide) (by decide) (by with_unfolding_all decide)
      (by with_unfolding_all decide) (by decide) (by decide)
      (by with_unfolding_all decide) (by with_unfolding_all decide)
      (by show resChainOK [(1 : Int), 2]
          rw [resChainOK_cons]
          exact ⟨by omega, resChainOK_single 2⟩)
  · exact psurgeon_graft_numbering.2.1 c5P c5L c5U c5S c5G c5H 1 2 5 2 4
      (by decide) (by decide) (by with_unfolding_all decide)
      (by with_unfolding_all decide) (by decide) (by decide)
      (by with_unfolding_all decide) (by with_unfolding_all decide)
      (by with_unfolding_all decide) (by with_unfolding_all decide)
      (by with_unfolding_all decide) (by with_unfolding_all decide)
      (by show resChainOK [(1 : Int), 2, 3]
          rw [resChainOK_cons, resChainOK_cons]
          exact ⟨by omega, by omega, resChainOK_single 3⟩)
  · exact psurgeon_graft_numbering.2.2.1 w2E w2F w2G w2H 2 1 (0, 0)
      (by decide) (by decide) (by with_unfolding_all decide)
      (by with_unfolding_all decide) (by decide) (by decide)
      (by with_unfolding_all decide) (by with_unfolding_all decide)
      (by show resChainOK [(1 : Int)]
          exact resChainOK_single 1)
  · exact psurgeon_graft_numbering.2.2.2 w2A w2B w2Cc w2Dc w2W w2V w2G
      w2H 2 5 6 1 (0, 0)
      (by decide) (by decide) (by with_unfolding_all decide)
      (by with_unfolding_all decide) (by decide) (by decide)
      (by with_unfolding_all decide) (by with_unfolding_all decide)
      (by with_unfolding_all decide)
      (by decide) (by decide) (by with_unfolding_all decide)
      (by with_unfolding_all decide) (by decide) (by decide)
      (by with_unfolding_all decide) (by with_unfolding_all decide)
      (by show resChainOK [(1 : Int)]
          exact resChainOK_single 1)

end IDPCG
